import Mathlib

/-!
Verification of the pycognita core: a shallow embedding of the Caps /
Pad / Element data model and of the header-detection engine
(`cognita/type_finder.py`, `cognita/caps.py`, `cognita/pad.py`,
`cognita/element.py`, `cognita/source.py`), together with theorems
settling the specification claims.

Python bytes are modelled as `List Nat` (one entry per byte, 0..255),
Python str values flowing through the detectors as `List Nat` of Unicode
code points.  Machine integers do not occur.  Python dicts are modelled
as insertion-ordered association lists with unique keys, matching
CPython dict semantics.  Fallible Python code returns `Except`.
-/

namespace Cognita

/-! ## Python values

`PyScalar`/`PyVal` model the Python values that appear as Caps parameter
values in the repository: strings, ints, None, and flat lists/tuples of
those (every parameter value the repository constructs or reads back is
of this shape).  Structural equality models Python `==` on these values:
a list and a tuple with the same elements are unequal in Python, and
`PyVal.plist` vs `PyVal.ptuple` are distinct constructors here. -/

inductive PyScalar : Type where
  | pstr (s : String)
  | pint (n : Int)
  | pnone
deriving DecidableEq, Repr

inductive PyVal : Type where
  | scal (v : PyScalar)
  | plist (vs : List PyScalar)
  | ptuple (vs : List PyScalar)
deriving DecidableEq, Repr

/-- Shorthand for string values. -/
def PyVal.pstr (s : String) : PyVal := .scal (.pstr s)

/-- Shorthand for int values. -/
def PyVal.pint (n : Int) : PyVal := .scal (.pint n)

/-- Python truthiness (`if value:`) for the modelled values. -/
def PyVal.truthy : PyVal → Bool
  | .scal (.pstr s) => s != ""
  | .scal (.pint n) => n != 0
  | .scal .pnone => false
  | .plist vs => !vs.isEmpty
  | .ptuple vs => !vs.isEmpty

/-- Python `str(value)` for the scalar values the code applies it to. -/
def PyScalar.pyStr : PyScalar → String
  | .pstr s => s
  | .pint n => toString n
  | .pnone => "None"

/-- Python `str(value)`; the code only ever stringifies scalars, the
container cases are spelled out so the function is total. -/
def PyVal.pyStr : PyVal → String
  | .scal v => v.pyStr
  | .plist _ => "\x5blist\x5d"
  | .ptuple _ => "(tuple)"

/-! ## Python dicts as ordered association lists -/

/-- `dict.get(k)`: first (and, with unique keys, only) binding of `k`. -/
def dictGet (d : List (String × PyVal)) (k : String) : Option PyVal :=
  (d.find? (fun kv => kv.1 == k)).map (·.2)

/-- `d[k] = v`: replace the value in place if `k` is bound, else append
(CPython keeps the original key position on overwrite). -/
def dictSet (d : List (String × PyVal)) (k : String) (v : PyVal) :
    List (String × PyVal) :=
  if d.any (fun kv => kv.1 == k) then
    d.map (fun kv => if kv.1 == k then (kv.1, v) else kv)
  else
    d ++ [(k, v)]

/-- `d.update(e)`: set every binding of `e` in order. -/
def dictUpdate (d e : List (String × PyVal)) : List (String × PyVal) :=
  e.foldl (fun acc kv => dictSet acc kv.1 kv.2) d

/-- Python `==` on dicts ignores insertion order: same keys, and the
values bound to each key are equal. -/
def dictEquiv (d e : List (String × PyVal)) : Bool :=
  d.all (fun kv => dictGet e kv.1 == some kv.2) &&
    e.all (fun kv => dictGet d kv.1 == some kv.2)

/-! ## RDF terms and graphs (the rdflib subset `caps.py` uses)

An rdflib `Graph` is a set of triples; its in-memory store is backed by
Python dicts, so iteration order is first-insertion order.  We model a
graph as a duplicate-free list in insertion order: `Graph.add` is a
no-op when the triple is already present.  Subjects and objects are
`RTerm`; predicates in this codebase are always URIs and are kept as
plain strings.  rdflib `Literal` equality for the literals this code
builds (plain string literals and typed int literals) is value equality
with distinct datatypes kept apart, which structural equality on
`PyScalar` captures. -/

inductive RTerm : Type where
  | uri (u : String)
  | bnode (id : Nat)
  | lit (v : PyScalar)
deriving DecidableEq, Repr

/-- Python `str(term)`: a `URIRef` is its string, a `Literal` its
lexical form, a `BNode` its label. -/
def RTerm.pyStr : RTerm → String
  | .uri u => u
  | .bnode id => "N" ++ toString id
  | .lit v => v.pyStr

/-- Python truthiness of a term: `URIRef`, `BNode` and `Literal` are all
`str` subclasses, so `if term:` tests the string form for emptiness. -/
def RTerm.truthy (t : RTerm) : Bool := t.pyStr != ""

structure Triple where
  subj : RTerm
  pred : String
  obj : RTerm
deriving DecidableEq, Repr

abbrev Graph := List Triple

/-- `graph.add(t)`: a graph is a set, adding an existing triple is a
no-op; a new triple lands at the end of the iteration order. -/
def Graph.add (g : Graph) (t : Triple) : Graph :=
  if t ∈ g then g else g ++ [t]

/-- `graph.value(s, p)`: the first object of a matching triple, if any. -/
def Graph.value (g : Graph) (s : RTerm) (p : String) : Option RTerm :=
  (g.find? (fun t => t.subj == s && t.pred == p)).map (·.obj)

/-- `graph.objects(s, p)`: all objects of matching triples, in graph
(insertion) order. -/
def Graph.objectsOf (g : Graph) (s : RTerm) (p : String) : List RTerm :=
  (g.filter (fun t => t.subj == s && t.pred == p)).map (·.obj)

/-- `graph.triples((s, None, None))`: all triples with subject `s`. -/
def Graph.triplesWithSubj (g : Graph) (s : RTerm) : Graph :=
  g.filter (fun t => t.subj == s)

/-! ## Namespace constants from `caps.py` -/

def RDF_type : String := "http://www.w3.org/1999/02/22-rdf-syntax-ns#type"
def RDFS_label : String := "http://www.w3.org/2000/01/rdf-schema#label"
def RDFS_comment : String := "http://www.w3.org/2000/01/rdf-schema#comment"
def RDFS_subClassOf : String := "http://www.w3.org/2000/01/rdf-schema#subClassOf"
def DCTERMS_format : String := "http://purl.org/dc/terms/format"
def SCHEMA_fileExtension : String := "https://schema.org/fileExtension"
def PC : String := "urn:cognita:caps#"
def PARAM : String := "urn:cognita:param:"

/-! ## Python string helpers used by `Caps.params` -/

/-- `s.startswith(p)` (on the character sequence). -/
def strStartsWith (s p : String) : Bool := p.data.isPrefixOf s.data

/-- Erase every non-overlapping occurrence of the nonempty pattern
`p0 :: ps`, scanning left to right.  Fuel-driven so the function is
structurally recursive (and so kernel-evaluable); a fuel of the input
length always suffices since every step consumes at least one
character. -/
def eraseAllFuel (p0 : Char) (ps : List Char) :
    Nat → List Char → List Char
  | _, [] => []
  | 0, l => l
  | fuel + 1, c :: rest =>
    if (p0 :: ps).isPrefixOf (c :: rest) then
      eraseAllFuel p0 ps fuel (rest.drop ps.length)
    else
      c :: eraseAllFuel p0 ps fuel rest

def eraseAllAux (p0 : Char) (ps : List Char) (l : List Char) :
    List Char :=
  eraseAllFuel p0 ps l.length l

/-- Python `s.replace(pat, "")` (the code erases the `PARAM` namespace
prefix this way; an empty pattern leaves the string unchanged here,
which agrees with Python when, as in `Caps.params`, the erased prefix
has just been checked to be present and nonempty). -/
def strEraseAll (s pat : String) : String :=
  match pat.data with
  | [] => s
  | p0 :: ps => ⟨eraseAllAux p0 ps s.data⟩

/-! ## Caps (`cognita/caps.py`)

A `Caps` is backed by a graph plus the subject node identifying it.
Anonymous Caps (no `name`, no truthy `uri` param) get a blank node; the
constructor takes the minted blank-node id as an explicit argument in
place of `BNode()`'s global freshness. -/

structure Caps where
  node : RTerm
  graph : Graph
deriving DecidableEq, Repr

/-- Truthiness of an optional Python string (`None` or `str`). -/
def optTruthy : Option String → Bool
  | some s => s != ""
  | none => false

/-- `Caps._map_key_to_predicate`. -/
def mapKeyToPredicate (key : String) : String :=
  if key == "description" then RDFS_comment
  else if key == "extensions" then SCHEMA_fileExtension
  else if key == "broader" then RDFS_subClassOf
  else PARAM ++ key

/-- `Caps._to_rdf_object`: `broader` values become URI refs, everything
else a literal. -/
def toRdfObject (key : String) (v : PyScalar) : RTerm :=
  if key == "broader" then .uri v.pyStr else .lit v

/-- `values = value if isinstance(value, (list, tuple)) else [value]`. -/
def flattenVal : PyVal → List PyScalar
  | .scal s => [s]
  | .plist vs => vs
  | .ptuple vs => vs

/-- `Caps._add_param`. -/
def addParam (node : RTerm) (g : Graph) (key : String) (value : PyVal) :
    Graph :=
  (flattenVal value).foldl
    (fun acc v => acc.add ⟨node, mapKeyToPredicate key, toRdfObject key v⟩) g

/-- Subject choice when the `uri` param is absent or falsy:
`elif name: PC[name] else BNode()`. -/
def fallbackNode (name : Option String) (bnodeId : Nat) : RTerm :=
  match name with
  | some n => if n != "" then RTerm.uri (PC ++ n) else RTerm.bnode bnodeId
  | none => RTerm.bnode bnodeId

/-- The subject node `Caps.__init__` picks: the truthy `uri` param if
present, else the `PC`-namespaced name, else a fresh blank node. -/
def initNode (name : Option String) (params : List (String × PyVal))
    (bnodeId : Nat) : RTerm :=
  match dictGet params "uri" with
  | some u => if u.truthy then RTerm.uri u.pyStr else fallbackNode name bnodeId
  | none => fallbackNode name bnodeId

/-- The first three `graph.add` calls of `Caps.__init__`: the
`rdf:type` triple, then the format triple when `media_type` is truthy,
then the label triple when `name` is truthy. -/
def baseBuild (node : RTerm) (media_type name : Option String) : Graph :=
  let g0 : Graph := Graph.add [] ⟨node, RDF_type, .uri (PC ++ "Caps")⟩
  let g1 :=
    match media_type with
    | some mt => if mt != "" then g0.add ⟨node, DCTERMS_format, .lit (.pstr mt)⟩ else g0
    | none => g0
  match name with
  | some n => if n != "" then g1.add ⟨node, RDFS_label, .lit (.pstr n)⟩ else g1
  | none => g1

/-- `Caps.__init__`. -/
def Caps.init (media_type name : Option String)
    (params : List (String × PyVal)) (bnodeId : Nat) : Caps :=
  let node := initNode name params bnodeId
  let g3 := params.foldl
    (fun acc kv => if kv.1 == "uri" then acc else addParam node acc kv.1 kv.2)
    (baseBuild node media_type name)
  ⟨node, g3⟩

/-- `Caps.media_type` property: `str(val) if val else None`. -/
def Caps.media_type (c : Caps) : Option String :=
  match c.graph.value c.node DCTERMS_format with
  | some v => if v.truthy then some v.pyStr else none
  | none => none

/-- `Caps.name` property. -/
def Caps.name (c : Caps) : Option String :=
  match c.graph.value c.node RDFS_label with
  | some v => if v.truthy then some v.pyStr else none
  | none => none

/-- `Caps.uri` property: `str(self._node)`. -/
def Caps.uri (c : Caps) : String := c.node.pyStr

/-- `o.value if isinstance(o, Literal) else str(o)` in the generic-param
scan of `Caps.params`.  The repository's tests
(`test_identity.py::test_caps_params_refactor`) pin the value of a
string literal to its string and of an int literal to its int. -/
def scalarOfTerm : RTerm → PyScalar
  | .lit v => v
  | t => .pstr t.pyStr

/-- One step of the `generic_values` accumulation: append `v` to the
entry of `k`, creating the entry at the end on first sight. -/
def groupAdd (acc : List (String × List PyScalar)) (k : String)
    (v : PyScalar) : List (String × List PyScalar) :=
  if acc.any (fun e => e.1 == k) then
    acc.map (fun e => if e.1 == k then (e.1, e.2 ++ [v]) else e)
  else
    acc ++ [(k, [v])]

/-- The `generic_values` dict of `Caps.params`: scan the subject's
triples in graph order, keep those whose predicate lies in the `PARAM`
namespace, group object values by the key obtained by erasing the
namespace prefix. -/
def Caps.genericGroups (c : Caps) : List (String × List PyScalar) :=
  (c.graph.triplesWithSubj c.node).foldl
    (fun acc t =>
      if strStartsWith t.pred PARAM then
        groupAdd acc (strEraseAll t.pred PARAM) (scalarOfTerm t.obj)
      else acc)
    []

/-- `p[key] = vals[0] if len(vals) == 1 else vals`. -/
def collapseGroup : String × List PyScalar → String × PyVal
  | (k, [v]) => (k, .scal v)
  | (k, vs) => (k, .plist vs)

/-- The `description` binding `Caps.params` reconstructs, if any. -/
def descPart (c : Caps) : List (String × PyVal) :=
  match c.graph.value c.node RDFS_comment with
  | some o => if o.truthy then [("description", PyVal.pstr o.pyStr)] else []
  | none => []

/-- The `extensions` binding `Caps.params` reconstructs, if any. -/
def extPart (c : Caps) : List (String × PyVal) :=
  let exts := (c.graph.objectsOf c.node SCHEMA_fileExtension).map RTerm.pyStr
  if !exts.isEmpty then [("extensions", PyVal.ptuple (exts.map .pstr))] else []

/-- The `broader` binding `Caps.params` reconstructs, if any. -/
def broadPart (c : Caps) : List (String × PyVal) :=
  let broaders := (c.graph.objectsOf c.node RDFS_subClassOf).map RTerm.pyStr
  if !broaders.isEmpty then [("broader", PyVal.ptuple (broaders.map .pstr))] else []

/-- `Caps.params` property: reconstruct a params dict from the graph —
the optional description, extensions and broader bindings, the uri of
the subject, then one assignment per generic parameter group. -/
def Caps.params (c : Caps) : List (String × PyVal) :=
  let p4 := descPart c ++ extPart c ++ broadPart c ++
    [("uri", PyVal.pstr c.node.pyStr)]
  (c.genericGroups.map collapseGroup).foldl
    (fun acc kv => dictSet acc kv.1 kv.2) p4

/-- `Caps.merge_params`, run as a state transformer: the pair is
(receiver after the call, returned Caps).  The Python method mutates
only `current_data`, a fresh dict built by the `params` property, so
the receiver comes back unchanged. -/
def Caps.merge_params_run (c : Caps) (new_params : List (String × PyVal))
    (bnodeId : Nat) : Caps × Caps :=
  let current := dictUpdate c.params new_params
  (c, Caps.init c.media_type c.name current bnodeId)

/-- `Caps.merge_params` result value. -/
def Caps.merge_params (c : Caps) (new_params : List (String × PyVal))
    (bnodeId : Nat) : Caps :=
  (c.merge_params_run new_params bnodeId).2

/-- `Caps.label`. -/
def Caps.label (c : Caps) : String :=
  match c.name with
  | some n => if n != "" then n else (match c.media_type with
      | some mt => if mt != "" then mt else "unknown"
      | none => "unknown")
  | none =>
    match c.media_type with
    | some mt => if mt != "" then mt else "unknown"
    | none => "unknown"

/-- Canonical form of a graph for the isomorphism test: every blank
node is renamed to id 0.  The constructor mints at most one blank node
per Caps (the subject) and never places blank nodes in object position,
so on such graphs set equality of canonical forms is exactly
`rdflib.compare.to_isomorphic` equality. -/
def canonTerm : RTerm → RTerm
  | .bnode _ => .bnode 0
  | t => t

def canonTriple (t : Triple) : Triple :=
  ⟨canonTerm t.subj, t.pred, canonTerm t.obj⟩

/-- Set equality of triple lists. -/
def graphSetEq (g h : Graph) : Bool :=
  g.all (fun t => t ∈ h) && h.all (fun t => t ∈ g)

/-- `Caps.__eq__`: isomorphism comparison of the two backing graphs. -/
def Caps.eq (c d : Caps) : Bool :=
  graphSetEq (c.graph.map canonTriple) (d.graph.map canonTriple)

/-! ## Byte and text helpers (`cognita/type_finder.py`)

Byte strings are `List Nat`; decoded text is a `List Nat` of code
points.  `utf8Decode` is strict UTF-8 as CPython's `bytes.decode`
implements it: truncated sequences, stray continuation bytes, overlong
forms, surrogates and values above `U+10FFFF` are rejected. -/

def utf8Decode : List Nat → Option (List Nat)
  | [] => some []
  | b :: rest =>
    if b < 0x80 then (utf8Decode rest).map (b :: ·)
    else if b < 0xC2 then none
    else if b < 0xE0 then
      match rest with
      | b1 :: rest1 =>
        if 0x80 ≤ b1 && b1 < 0xC0 then
          (utf8Decode rest1).map (((b - 0xC0) * 64 + (b1 - 0x80)) :: ·)
        else none
      | [] => none
    else if b < 0xF0 then
      match rest with
      | b1 :: b2 :: rest2 =>
        let lo1 := if b == 0xE0 then 0xA0 else 0x80
        let hi1 := if b == 0xED then 0x9F else 0xBF
        if lo1 ≤ b1 && b1 ≤ hi1 && 0x80 ≤ b2 && b2 < 0xC0 then
          (utf8Decode rest2).map
            (((b - 0xE0) * 4096 + (b1 - 0x80) * 64 + (b2 - 0x80)) :: ·)
        else none
      | _ => none
    else if b < 0xF5 then
      match rest with
      | b1 :: b2 :: b3 :: rest3 =>
        let lo1 := if b == 0xF0 then 0x90 else 0x80
        let hi1 := if b == 0xF4 then 0x8F else 0xBF
        if lo1 ≤ b1 && b1 ≤ hi1 && 0x80 ≤ b2 && b2 < 0xC0 && 0x80 ≤ b3 && b3 < 0xC0 then
          (utf8Decode rest3).map
            (((b - 0xF0) * 262144 + (b1 - 0x80) * 4096 + (b2 - 0x80) * 64 + (b3 - 0x80)) :: ·)
        else none
      | _ => none
    else none

/-- Code points of a Lean string literal (used for the ASCII marker
constants the detectors search for). -/
def strCodes (s : String) : List Nat := s.data.map Char.toNat

/-- `preview_text(data, max_len)`: decode the first `max_len` bytes as
UTF-8, falling back to latin-1 (which maps byte `b` to code point `b`
and never fails, so `errors="ignore"` is moot). -/
def preview_text (data : List Nat) (max_len : Nat) : List Nat :=
  let snippet := data.take max_len
  match utf8Decode snippet with
  | some cps => cps
  | none => snippet

/-- ASCII case folding of a code point.  Python `str.lower()` applies
full Unicode case mapping; for deciding containment of the pure-ASCII,
`k`-free markers used below the two agree (the only code points whose
Unicode lowercase contains ASCII letters are U+212A, which lowers to
`k`, and U+0130, which lowers to `i` followed by U+0307; neither can
create an occurrence of any searched marker). -/
def lowerAscii (c : Nat) : Nat :=
  if 65 ≤ c && c ≤ 90 then c + 32 else c

/-- `_decode_lower(data, max_len)`. -/
def _decode_lower (data : List Nat) (max_len : Nat) : List Nat :=
  (preview_text data max_len).map lowerAscii

/-- Python `needle in haystack` on sequences. -/
def containsSeq {α : Type} [BEq α] (needle : List α) : List α → Bool
  | [] => needle.isEmpty
  | c :: t => needle.isPrefixOf (c :: t) || containsSeq needle t

/-! ## Detector predicates (`cognita/type_finder.py`) -/

/-- `_is_calendar`. -/
def _is_calendar (data : List Nat) : Bool :=
  let text := _decode_lower data 2048
  containsSeq (strCodes "begin:vcalendar") text &&
    containsSeq (strCodes "end:vcalendar") text

/-- Python `re` whitespace class `\s` for text patterns (ASCII
whitespace, the C1 separators, NEL, NBSP and the Unicode space
separators). -/
def isPySpace (c : Nat) : Bool :=
  c == 9 || c == 10 || c == 11 || c == 12 || c == 13 || c == 28 ||
  c == 29 || c == 30 || c == 31 || c == 32 || c == 133 || c == 160 ||
  c == 0x1680 || (0x2000 ≤ c && c ≤ 0x200A) || c == 0x2028 ||
  c == 0x2029 || c == 0x202F || c == 0x205F || c == 0x3000

/-- Decimal digit for the regex `\d`.  Python matches any Unicode
decimal digit; this model covers the ASCII digits, which is exact on
every input evaluated in this development. -/
def isAsciiDigit (c : Nat) : Bool := 48 ≤ c && c ≤ 57

/-- Match of `\S+ .+\d{4}$` against the code points following
`"From "`: some nonempty non-whitespace run, a space, a nonempty
newline-free middle, and four final digits. -/
def mboxTailMatch (cs : List Nat) : Bool :=
  (List.range cs.length).any fun i =>
    decide (1 ≤ i) && (cs.take i).all (fun c => !isPySpace c) &&
      cs.getD i 0 == 32 && decide (i < cs.length) &&
      (let rest := cs.drop (i + 1)
       decide (5 ≤ rest.length) &&
         (rest.take (rest.length - 4)).all (fun c => c != 10) &&
         (rest.drop (rest.length - 4)).all isAsciiDigit)

/-- `re.match(r"^From \S+ .+\d{4}$", line)` as a decision procedure:
the pattern matches iff some split of the line has the required shape
(regex backtracking realises any witnessing split). -/
def mboxLineMatch (line : List Nat) : Bool :=
  (strCodes "From ").isPrefixOf line && mboxTailMatch (line.drop 5)

/-- `_is_mbox`: a `"From "` prefix and a first line (up to the first
newline byte) that decodes as UTF-8 and matches the envelope pattern. -/
def _is_mbox (data : List Nat) : Bool :=
  if !(strCodes "From ").isPrefixOf data then false
  else
    match utf8Decode (data.takeWhile (fun b => b != 10)) with
    | none => false
    | some line => mboxLineMatch line

/-- `_is_eml`. -/
def _is_eml (data : List Nat) : Bool :=
  let header := _decode_lower data 2048
  containsSeq (strCodes "subject:") header &&
    containsSeq (strCodes "from:") header

/-- `_is_pdf`. -/
def _is_pdf (data : List Nat) : Bool :=
  (strCodes "%PDF-").isPrefixOf data

/-- `_is_png`. -/
def _is_png (data : List Nat) : Bool :=
  ([0x89, 0x50, 0x4E, 0x47, 0x0D, 0x0A, 0x1A, 0x0A] : List Nat).isPrefixOf data

/-- `_is_jpeg`. -/
def _is_jpeg (data : List Nat) : Bool :=
  ([0xFF, 0xD8, 0xFF] : List Nat).isPrefixOf data

/-- `_is_gif`. -/
def _is_gif (data : List Nat) : Bool :=
  (strCodes "GIF87a").isPrefixOf data || (strCodes "GIF89a").isPrefixOf data

/-- `_is_mp4`: at least 12 bytes and `ftyp` at offset 4. -/
def _is_mp4 (data : List Nat) : Bool :=
  decide (12 ≤ data.length) && (data.drop 4).take 4 == strCodes "ftyp"

/-- `_is_ooxml_zip`: ZIP magic plus one of the Office package markers
anywhere in the sample. -/
def _is_ooxml_zip (data : List Nat) : Bool :=
  ([80, 75, 3, 4] : List Nat).isPrefixOf data &&
    (containsSeq (strCodes "[Content_Types].xml") data ||
     containsSeq (strCodes "word/") data ||
     containsSeq (strCodes "ppt/") data ||
     containsSeq (strCodes "xl/") data)

/-- `_is_zip`. -/
def _is_zip (data : List Nat) : Bool :=
  ([80, 75, 3, 4] : List Nat).isPrefixOf data

/-- `_is_elf`. -/
def _is_elf (data : List Nat) : Bool :=
  ([0x7F, 0x45, 0x4C, 0x46] : List Nat).isPrefixOf data

/-- Count of printable-ASCII / whitespace bytes. -/
def printableCount (sample : List Nat) : Nat :=
  (sample.filter
    (fun b => (32 ≤ b && b ≤ 126) || b == 9 || b == 10 || b == 13)).length

/-- `_is_text_document`.  The float test `printable / len(sample) <
0.85` is decided here as `20 * printable < 17 * len(sample)`: with
`len(sample) ≤ 2048` the quotient is either exactly 17/20 — in which
case both the IEEE comparison and the rational one report "not below
threshold" — or at distance at least `1/(20·2048)` from it, far beyond
double rounding error, so the two tests agree on every input. -/
def _is_text_document (data : List Nat) : Bool :=
  let sample := data.take 2048
  if sample.isEmpty then false
  else if 20 * printableCount sample < 17 * sample.length then false
  else !containsSeq (strCodes "begin:vcalendar") (_decode_lower sample 2048)

/-! ## Caps constants and the detector chain -/

def DOCUMENT_CAPS : Caps :=
  Caps.init (some "document") (some "document")
    [("description", PyVal.pstr "Document-like content (pdf, docx, txt, html)."),
     ("extensions", PyVal.ptuple [.pstr "pdf", .pstr "docx", .pstr "pptx",
        .pstr "xlsx", .pstr "txt", .pstr "md", .pstr "html"]),
     ("uri", PyVal.pstr "urn:cognita:caps:document"),
     ("broader", PyVal.ptuple [.pstr "urn:cognita:category:content"])] 0

def IMAGE_CAPS : Caps :=
  Caps.init (some "image") (some "image-photo")
    [("description", PyVal.pstr "Still image or photo (png, jpeg, gif, webp)."),
     ("extensions", PyVal.ptuple [.pstr "png", .pstr "jpg", .pstr "jpeg",
        .pstr "gif", .pstr "webp"]),
     ("uri", PyVal.pstr "urn:cognita:caps:image-photo"),
     ("broader", PyVal.ptuple [.pstr "urn:cognita:category:content"])] 0

def VIDEO_CAPS : Caps :=
  Caps.init (some "video") (some "video")
    [("description", PyVal.pstr "Video container (mp4/mov)."),
     ("extensions", PyVal.ptuple [.pstr "mp4", .pstr "m4v", .pstr "mov"]),
     ("uri", PyVal.pstr "urn:cognita:caps:video"),
     ("broader", PyVal.ptuple [.pstr "urn:cognita:category:content"])] 0

def MBOX_CAPS : Caps :=
  Caps.init (some "application/mbox") (some "application-mbox")
    [("description", PyVal.pstr "Email archive (mbox)."),
     ("extensions", PyVal.ptuple [.pstr "mbox"]),
     ("uri", PyVal.pstr "urn:cognita:caps:application-mbox"),
     ("broader", PyVal.ptuple [.pstr "urn:cognita:category:content"])] 0

def EML_CAPS : Caps :=
  Caps.init (some "message/rfc822") (some "message-rfc822")
    [("description", PyVal.pstr "Email message (eml/rfc822)."),
     ("extensions", PyVal.ptuple [.pstr "eml"]),
     ("uri", PyVal.pstr "urn:cognita:caps:message-rfc822"),
     ("broader", PyVal.ptuple [.pstr "urn:cognita:category:content"])] 0

def CALENDAR_CAPS : Caps :=
  Caps.init (some "calendar") (some "calendar")
    [("description", PyVal.pstr "Calendar data (ICS/vCalendar)."),
     ("extensions", PyVal.ptuple [.pstr "ics"]),
     ("uri", PyVal.pstr "urn:cognita:caps:calendar"),
     ("broader", PyVal.ptuple [.pstr "urn:cognita:category:content"])] 0

def BINARY_CAPS : Caps :=
  Caps.init (some "binary") (some "binary-file")
    [("description", PyVal.pstr "Executable or opaque binary data (zip, elf, etc)."),
     ("extensions", PyVal.scal .pnone),
     ("uri", PyVal.pstr "urn:cognita:caps:binary"),
     ("broader", PyVal.ptuple [.pstr "urn:cognita:category:content"])] 0

deriving instance DecidableEq for Except

/-- A `HeaderDetector`: name, predicate and resulting Caps.  The
predicate is `Except`-valued so that a raising Python predicate is
representable; every built-in predicate is total and wrapped with
`okDet`. -/
structure HeaderDetector where
  name : String
  detector : List Nat → Except Unit Bool
  caps : Caps

def okDet (f : List Nat → Bool) : List Nat → Except Unit Bool :=
  fun d => .ok (f d)

def DEFAULT_DETECTORS : List HeaderDetector :=
  [⟨"calendar", okDet _is_calendar, CALENDAR_CAPS⟩,
   ⟨"mbox", okDet _is_mbox, MBOX_CAPS⟩,
   ⟨"eml", okDet _is_eml, EML_CAPS⟩,
   ⟨"pdf", okDet _is_pdf, DOCUMENT_CAPS⟩,
   ⟨"ooxml-zip", okDet _is_ooxml_zip, DOCUMENT_CAPS⟩,
   ⟨"mp4", okDet _is_mp4, VIDEO_CAPS⟩,
   ⟨"png", okDet _is_png, IMAGE_CAPS⟩,
   ⟨"jpeg", okDet _is_jpeg, IMAGE_CAPS⟩,
   ⟨"gif", okDet _is_gif, IMAGE_CAPS⟩,
   ⟨"zip", okDet _is_zip, BINARY_CAPS⟩,
   ⟨"elf", okDet _is_elf, BINARY_CAPS⟩,
   ⟨"text-document", okDet _is_text_document, DOCUMENT_CAPS⟩]

/-- `HeaderAnalyzer.detect`: first detector whose predicate returns
true wins; a predicate that raises is treated as no match and the scan
continues; no match at all gives `none`. -/
def HeaderAnalyzer.detect (detectors : List HeaderDetector)
    (data : List Nat) : Option Caps :=
  match detectors with
  | [] => none
  | d :: rest =>
    match d.detector data with
    | .error _ => HeaderAnalyzer.detect rest data
    | .ok true => some d.caps
    | .ok false => HeaderAnalyzer.detect rest data

/-- `HeaderAnalyzer()` with the default chain. -/
def detectDefault (data : List Nat) : Option Caps :=
  HeaderAnalyzer.detect DEFAULT_DETECTORS data

/-! ## Errors raised by the modelled code paths -/

inductive PyErr : Type where
  | valueError (msg : String)
  | typeError (msg : String)
  | notImplementedError (msg : String)
  | typeFinderError (msg : String)
deriving DecidableEq, Repr

/-! ## Pads (`cognita/pad.py`)

Pads form a reference cycle (pad ↔ peer), so they live in a store: a
list of `PadState` indexed by position, with `peer` an index into the
same store.  `Pad.link` mutates the store; it is modelled as returning
the store after the call together with the raised error, if any —
Python raises before any assignment, so on error the store is returned
untouched. -/

inductive PadDirection : Type where
  | src
  | sink
deriving DecidableEq, Repr

structure PadState where
  name : String
  direction : PadDirection
  element : Nat
  peer : Option Nat
  caps : Option Caps
deriving Repr

/-- `Pad.link`.  The catch-all arm covers dangling indices, which have
no Python counterpart (references are always valid there). -/
def Pad.link (st : List PadState) (i j : Nat) :
    List PadState × Option PyErr :=
  match st[i]?, st[j]? with
  | some a, some b =>
    if a.peer.isSome || b.peer.isSome then
      (st, some (.valueError "pad already linked"))
    else if a.direction == b.direction then
      (st, some (.valueError "pad directions must be opposite"))
    else if a.direction == .src && b.direction != .sink then
      (st, some (.valueError "source pad must connect to sink pad"))
    else if a.direction == .sink && b.direction != .src then
      (st, some (.valueError "sink pad must connect to source pad"))
    else
      ((st.set i { a with peer := some j }).set j { b with peer := some i },
        none)
  | _, _ => (st, some (.valueError "invalid pad index"))

/-- `Pad.push`: on success the returned list is the sequence of buffer
handler invocations the call performs, each as (index of the pad handed
to the handler, payload passed).  The handler itself
(`peer.element.on_buffer`) is outside the pad; the push primitive
determines exactly which invocations happen. -/
def Pad.push {α : Type} (st : List PadState) (i : Nat) (buffer : α) :
    Except PyErr (List (Nat × α)) :=
  match st[i]? with
  | none => .error (.valueError "invalid pad index")
  | some p =>
    if p.direction != .src then
      .error (.valueError "push is only valid on src pads")
    else
      match p.peer with
      | none => .error (.valueError "pad is not linked")
      | some j => .ok [(j, buffer)]

/-! ## Elements (`cognita/element.py`) -/

/-- An event payload: either an actual `Caps` value or anything else
(`isinstance(payload, Caps)` discriminates). -/
inductive EventPayload : Type where
  | capsPayload (c : Caps)
  | nonCaps (tag : String)
deriving Repr

/-- `Element.handle_event` (base class): only the `"caps"` event has
generic handling — validate the payload and store it on the pad; every
other event name raises. -/
def Element.handle_event (pad : PadState) (event : String)
    (payload : EventPayload) : Except PyErr PadState :=
  if event == "caps" then
    match payload with
    | .capsPayload c => .ok { pad with caps := some c }
    | .nonCaps _ => .error (.typeError "caps event requires Caps payload")
  else
    .error (.notImplementedError ("unhandled event: " ++ event))

/-! ## Source detection step (`cognita/source.py`) -/

/-- Lowercase hex digit. -/
def hexDigit (n : Nat) : Char :=
  if n < 10 then Char.ofNat (48 + n) else Char.ofNat (87 + n)

/-- `header_sample_to_hex`: hex of the first 64 bytes. -/
def header_sample_to_hex (data : List Nat) : String :=
  ⟨(data.take 64).foldr
    (fun b acc => hexDigit (b / 16 % 16) :: hexDigit (b % 16) :: acc) []⟩

/-- The Ollama classifier collaborator, abstracted to its call
signature `guess_file_type(file_path, header_hex, body_preview)`;
failure carries the stringified exception. -/
structure OllamaClient where
  guess_file_type : String → String → List Nat → Except String Caps

/-- `_detect_caps` from `cognita/source.py`.  `if not caps:` tests the
detect result for falsiness; a `Caps` instance is always truthy (the
class defines neither `__bool__` nor `__len__`), so the test is exactly
"no detector matched". -/
def _detect_caps (data : List Nat) (uri : String)
    (detectors : List HeaderDetector) (ollama : Option OllamaClient) :
    Except PyErr (Caps × String) :=
  match HeaderAnalyzer.detect detectors data with
  | some caps => .ok (caps, "header")
  | none =>
    match ollama with
    | none => .error (.typeFinderError "Unknown format; Ollama fallback not configured")
    | some client =>
      match client.guess_file_type uri (header_sample_to_hex data)
          (preview_text data 400) with
      | .ok caps => .ok (caps, "ollama")
      | .error e => .error (.typeFinderError ("Ollama error: " ++ e))

/-! ## Claim formalisations and concrete samples -/

/-- Position of the named detector in the default chain. -/
def detIndex (nm : String) : Option Nat :=
  DEFAULT_DETECTORS.findIdx? (fun d => d.name == nm)

/-- Strict order on optional indices (false when either is absent). -/
def idxLt (a b : Option Nat) : Bool :=
  match a, b with
  | some x, some y => decide (x < y)
  | _, _ => false

/-- The signature-specific detectors named by the ordering claim. -/
def sigNames : List String :=
  ["pdf", "png", "jpeg", "gif", "mp4", "elf", "ooxml-zip"]

/-- The ordering claim as stated: every signature-specific detector
precedes both the plain-ZIP detector and the text-density heuristic,
and the text-density heuristic is last. -/
def orderClaim : Bool :=
  sigNames.all
    (fun nm => idxLt (detIndex nm) (detIndex "zip") &&
      idxLt (detIndex nm) (detIndex "text-document")) &&
  detIndex "text-document" == some (DEFAULT_DETECTORS.length - 1)

/-- A sample matched by both the calendar and the eml predicates. -/
def emlCalendarSample : List Nat :=
  strCodes "BEGIN:VCALENDAR\nFROM: A\nSUBJECT: B\nEND:VCALENDAR"

/-- A sample matched by both the mbox predicate and the text-density
predicate. -/
def mboxTextSample : List Nat := strCodes "From a b 2011"

/-- A detector whose predicate raises on every sample. -/
def boomDetector : HeaderDetector :=
  ⟨"boom", fun _ => .error (), BINARY_CAPS⟩

/-- A store with one unlinked source pad and one unlinked sink pad. -/
def padStorePair : List PadState :=
  [⟨"src0", .src, 0, none, none⟩, ⟨"sink0", .sink, 1, none, none⟩]

/-- A store with a source pad linked to a sink pad. -/
def padStoreLinked : List PadState :=
  [⟨"src0", .src, 0, some 1, none⟩, ⟨"sink0", .sink, 1, some 0, none⟩]

/-- Non-printable noise no default detector matches. -/
def noiseSample : List Nat := [0, 1, 2, 0, 1, 2]

/-! ## Normal-form params dicts

`Caps.__init__` flattens, retypes and deduplicates parameter values on
the way into the graph, and `Caps.params` reads them back in normal
form: generic multi-valued entries come back as lists, one-element
sequences collapse to their single element, `extensions`/`broader` come
back as tuples of strings, duplicates disappear.  `goodEntry` describes
exactly the value shapes this round trip preserves — it matches every
params dict the repository constructs. -/

def isStrScalar : PyScalar → Bool
  | .pstr _ => true
  | _ => false

def isIntOrStrScalar : PyScalar → Bool
  | .pstr _ => true
  | .pint _ => true
  | .pnone => false

/-- A truthy plain string value. -/
def strShape : PyVal → Bool
  | .scal (.pstr s) => s != ""
  | _ => false

/-- A nonempty duplicate-free tuple of strings. -/
def tupleShape : PyVal → Bool
  | .ptuple vs => !vs.isEmpty && vs.all isStrScalar && decide vs.Nodup
  | _ => false

/-- A generic parameter in normal form: a string/int scalar, or a
duplicate-free list of at least two of those; the key must not contain
the `PARAM` namespace text (so erasing it recovers the key). -/
def genericShape (k : String) : PyVal → Bool
  | .scal v => !containsSeq PARAM.data k.data && isIntOrStrScalar v
  | .plist vs =>
    !containsSeq PARAM.data k.data && decide (2 ≤ vs.length) &&
      vs.all isIntOrStrScalar && decide vs.Nodup
  | .ptuple _ => false

def goodEntry (kv : String × PyVal) : Bool :=
  if kv.1 == "description" then strShape kv.2
  else if kv.1 == "extensions" then tupleShape kv.2
  else if kv.1 == "broader" then tupleShape kv.2
  else if kv.1 == "uri" then strShape kv.2
  else genericShape kv.1 kv.2

/-- A params dict in constructor normal form: unique keys, every entry
of a round-trippable shape. -/
def GoodDict (q : List (String × PyVal)) : Prop :=
  (q.map Prod.fst).Nodup ∧ ∀ kv ∈ q, goodEntry kv = true

/-- The triples `_add_param` generates for one dict entry (none for the
skipped `uri` key). -/
def entryTriples (node : RTerm) (kv : String × PyVal) : List Triple :=
  if kv.1 == "uri" then []
  else (flattenVal kv.2).map
    (fun v => ⟨node, mapKeyToPredicate kv.1, toRdfObject kv.1 v⟩)

/-- The head of the constructed graph: the `rdf:type` triple plus the
optional format and label triples. -/
def baseTriples (node : RTerm) (media_type name : Option String) :
    List Triple :=
  ⟨node, RDF_type, .uri (PC ++ "Caps")⟩ ::
    ((match media_type with
      | some mt => if mt != "" then [⟨node, DCTERMS_format, RTerm.lit (.pstr mt)⟩] else []
      | none => []) ++
     (match name with
      | some n => if n != "" then [⟨node, RDFS_label, RTerm.lit (.pstr n)⟩] else []
      | none => []))

/-- The value multiset of a parameter value: a scalar stands for itself,
a list or tuple for its elements (multi-valued entries compare
order-independently through permutation of these). -/
def valueBag : PyVal → List PyScalar := flattenVal

/-- Order-independent agreement of two params dicts: same keys, and for
each key the value multisets coincide. -/
def paramsAgree (d e : List (String × PyVal)) : Bool :=
  d.all (fun kv =>
    match dictGet e kv.1 with
    | some w => (valueBag kv.2).isPerm (valueBag w)
    | none => false) &&
  e.all (fun kv => (dictGet d kv.1).isSome)

/-- The generic (non-special, non-uri) entries of a params dict with
their flattened values — what the `generic_values` scan of
`Caps.params` reconstructs. -/
def genBlock (kv : String × PyVal) : Option (String × List PyScalar) :=
  if kv.1 == "uri" || kv.1 == "description" || kv.1 == "extensions" ||
      kv.1 == "broader" then
    none
  else
    some (kv.1, flattenVal kv.2)

/-- A single optional binding, as a dict fragment. -/
def optBinding (k : String) (o : Option PyVal) : List (String × PyVal) :=
  match o with
  | some v => [(k, v)]
  | none => []

/-- A receiver for the C7/C8 witnesses. -/
def capsSampleA : Caps :=
  Caps.init (some "text/plain") (some "plain-text")
    [("fingerprint", PyVal.pstr "abc123hash")] 0

end Cognita

namespace Cognita

/-! # Theorems

General lemmas first, then for each claim its theorem (plus witness or
counterexample, as the claim's status requires). -/

/-- Scanning skips a detector whose predicate raises. -/
theorem detect_skips_error (pre post : List HeaderDetector)
    (d : HeaderDetector) (s : List Nat) (e : Unit)
    (h : d.detector s = .error e) :
    HeaderAnalyzer.detect (pre ++ d :: post) s =
      HeaderAnalyzer.detect (pre ++ post) s := by
  induction pre with
  | nil =>
    simp only [List.nil_append, HeaderAnalyzer.detect, h]
  | cons p ps ih =>
    simp only [List.cons_append, HeaderAnalyzer.detect]
    cases hp : p.detector s with
    | error e2 => exact ih
    | ok b => cases b <;> simp [ih]

/-- If no detector answers `ok true`, the scan returns `none`. -/
theorem detect_none_of_no_match (dets : List HeaderDetector) (s : List Nat)
    (h : ∀ d ∈ dets, d.detector s ≠ .ok true) :
    HeaderAnalyzer.detect dets s = none := by
  induction dets with
  | nil => rfl
  | cons d rest ih =>
    have hd : d.detector s ≠ .ok true := h d (by simp)
    simp only [HeaderAnalyzer.detect]
    cases hdet : d.detector s with
    | error e => exact ih (fun d2 h2 => h d2 (by simp [h2]))
    | ok b =>
      cases b with
      | false => exact ih (fun d2 h2 => h d2 (by simp [h2]))
      | true => exact absurd hdet hd

/-- The scan returns the Caps of the first detector whose predicate
answers `ok true`, whatever the earlier detectors do short of that. -/
theorem detect_first (dets : List HeaderDetector) (s : List Nat) :
    ∀ (i : Nat) (di : HeaderDetector), dets[i]? = some di →
      di.detector s = .ok true →
      (∀ j, j < i →
        (dets[j]?).map (fun d => d.detector s) ≠ some (.ok true)) →
      HeaderAnalyzer.detect dets s = some di.caps := by
  induction dets with
  | nil => intro i di hget; simp at hget
  | cons d rest ih =>
    intro i di hget htrue hearlier
    cases i with
    | zero =>
      simp only [List.getElem?_cons_zero, Option.some_inj] at hget
      subst hget
      simp [HeaderAnalyzer.detect, htrue]
    | succ n =>
      have hd : ¬ d.detector s = .ok true := by
        intro hcontra
        exact hearlier 0 (Nat.succ_pos n)
          (by simp [hcontra])
      simp only [List.getElem?_cons_succ] at hget
      have hrest := ih n di hget htrue
        (fun j hj => by
          have := hearlier (j + 1) (Nat.succ_lt_succ hj)
          simpa using this)
      simp only [HeaderAnalyzer.detect]
      cases hdet : d.detector s with
      | error e => exact hrest
      | ok b =>
        cases b with
        | false => exact hrest
        | true => exact absurd hdet hd

/-- C1 (corrected).  The claim quantifies over every matching detector;
on a sample matched by two detectors it demands two different return
values.  Concretely: the eml predicate matches `emlCalendarSample`, yet
`detect` does not return the eml Caps (the calendar detector, earlier
in the chain, also matches and wins). -/
theorem C1_counterexample :
    (DEFAULT_DETECTORS[2]?).map (fun d => d.detector emlCalendarSample) =
      some (.ok true) ∧
    detectDefault emlCalendarSample ≠ some EML_CAPS ∧
    detectDefault emlCalendarSample = some CALENDAR_CAPS := by
  refine ⟨by decide, by decide, by decide⟩

/-- C1 (amended): if detector `di` matches the sample and no detector
earlier in the declared order matches it, `detect` returns `di`'s
Caps. -/
theorem C1_first_match_precedence (s : List Nat) (i : Nat)
    (di : HeaderDetector) (hget : DEFAULT_DETECTORS[i]? = some di)
    (htrue : di.detector s = .ok true)
    (hearlier : ∀ j, j < i →
      (DEFAULT_DETECTORS[j]?).map (fun d => d.detector s) ≠
        some (.ok true)) :
    detectDefault s = some di.caps :=
  detect_first DEFAULT_DETECTORS s i di hget htrue hearlier

/-- Witness for C1: the PDF sample is matched by the pdf detector
(index 3) and by none of calendar, mbox, eml before it, so `detect`
returns the document Caps. -/
theorem C1_first_match_precedence_witness :
    detectDefault (strCodes "%PDF-1.4") = some DOCUMENT_CAPS :=
  C1_first_match_precedence (strCodes "%PDF-1.4") 3
    ⟨"pdf", okDet _is_pdf, DOCUMENT_CAPS⟩ rfl rfl (by decide)

/-- C2 (corrected).  The claim demands that the text-density predicate
reject every sample matched by an earlier text-based detector; but
`_is_text_document` only excludes the calendar marker.
`mboxTextSample` is matched by the mbox predicate (position 1 in the
chain, before text-document) and by the text-density predicate at the
same time. -/
theorem C2_counterexample :
    (DEFAULT_DETECTORS[1]?).map
        (fun d => (d.name, d.detector mboxTextSample)) =
      some ("mbox", .ok true) ∧
    _is_text_document mboxTextSample = true := by
  refine ⟨by decide, by decide⟩

/-- C2 (amended): the text-density predicate accepts only samples whose
2048-byte prefix is nonempty with printable density at least 0.85, and
it rejects every sample the calendar predicate matches; samples matched
by the earlier mbox/eml predicates are not excluded by the predicate
itself (the chain order alone shadows them). -/
theorem C2_density_and_calendar_exclusion (data : List Nat) :
    (_is_text_document data = true →
      data.take 2048 ≠ [] ∧
        17 * (data.take 2048).length ≤ 20 * printableCount (data.take 2048)) ∧
    (_is_calendar data = true → _is_text_document data = false) := by
  have hdec : _decode_lower (data.take 2048) 2048 = _decode_lower data 2048 := by
    simp [_decode_lower, preview_text, List.take_take]
  constructor
  · intro h
    simp only [_is_text_document] at h
    split at h
    · simp at h
    next hempty =>
      split at h
      next hdens => simp at h
      next hdens =>
        refine ⟨by simpa [List.isEmpty_iff] using hempty, ?_⟩
        omega
  · intro hcal
    simp only [_is_calendar, Bool.and_eq_true] at hcal
    simp only [_is_text_document, hdec]
    split
    · rfl
    · split
      · rfl
      · simp [hcal.1]

/-- Witness for C2: a concrete all-printable calendar sample is
rejected by the text-density predicate. -/
theorem C2_density_and_calendar_exclusion_witness :
    _is_text_document (strCodes "begin:vcalendar\nend:vcalendar") = false :=
  (C2_density_and_calendar_exclusion
    (strCodes "begin:vcalendar\nend:vcalendar")).2 (by decide)

/-- C3 (corrected).  As stated the ordering claim is false: the ELF
detector sits at index 10, after the plain-ZIP detector at index 9. -/
theorem C3_counterexample :
    orderClaim = false ∧ detIndex "elf" = some 10 ∧
      detIndex "zip" = some 9 := by
  refine ⟨by decide, by decide, by decide⟩

/-- C3 (amended): every signature-specific detector except ELF precedes
the plain-ZIP detector; ELF comes directly after plain ZIP; all of them
precede the text-density heuristic, which is the last detector of the
chain. -/
theorem C3_amended_order :
    ((["pdf", "ooxml-zip", "mp4", "png", "jpeg", "gif"].all
        (fun nm => idxLt (detIndex nm) (detIndex "zip"))) &&
      sigNames.all
        (fun nm => idxLt (detIndex nm) (detIndex "text-document")) &&
      idxLt (detIndex "zip") (detIndex "elf") &&
      (detIndex "text-document" ==
        some (DEFAULT_DETECTORS.length - 1))) = true := by
  decide

/-- C4 (confirmed): a raising predicate is treated as no match — the
scan of the remaining detectors is unaffected — and a chain with no
matching detector yields `none`. -/
theorem C4_error_handling :
    (∀ (pre post : List HeaderDetector) (d : HeaderDetector)
      (s : List Nat) (e : Unit), d.detector s = .error e →
      HeaderAnalyzer.detect (pre ++ d :: post) s =
        HeaderAnalyzer.detect (pre ++ post) s) ∧
    (∀ (dets : List HeaderDetector) (s : List Nat),
      (∀ d ∈ dets, d.detector s ≠ .ok true) →
      HeaderAnalyzer.detect dets s = none) :=
  ⟨detect_skips_error, detect_none_of_no_match⟩

/-- Witness for C4: dropping a concrete raising detector in front of
the pdf detector does not change the scan, and a chain of one raising
detector alone detects nothing. -/
theorem C4_error_handling_witness :
    HeaderAnalyzer.detect
        ([] ++ boomDetector :: [⟨"pdf", okDet _is_pdf, DOCUMENT_CAPS⟩])
        (strCodes "%PDF-") =
      HeaderAnalyzer.detect ([] ++ [⟨"pdf", okDet _is_pdf, DOCUMENT_CAPS⟩])
        (strCodes "%PDF-") ∧
    HeaderAnalyzer.detect [boomDetector] noiseSample = none :=
  ⟨C4_error_handling.1 [] [⟨"pdf", okDet _is_pdf, DOCUMENT_CAPS⟩]
      boomDetector (strCodes "%PDF-") () rfl,
    C4_error_handling.2 [boomDetector] noiseSample
      (by intro d hd; simp only [List.mem_singleton] at hd; subst hd
          simp [boomDetector])⟩

/-- C5 (confirmed): linking succeeds exactly when the directions differ
and neither pad has a peer; on failure the store (and so both pads) is
returned untouched. -/
theorem C5_link_spec (st : List PadState) (i j : Nat) (a b : PadState)
    (hi : st[i]? = some a) (hj : st[j]? = some b) :
    ((Pad.link st i j).2 = none ↔
      (a.direction ≠ b.direction ∧ a.peer = none ∧ b.peer = none)) ∧
    ((Pad.link st i j).2 ≠ none → (Pad.link st i j).1 = st) := by
  cases hpa : a.peer <;> cases hpb : b.peer <;>
    cases hda : a.direction <;> cases hdb : b.direction <;>
      simp [Pad.link, hi, hj, hpa, hpb, hda, hdb]

/-- Witness for C5: the concrete src/sink pair links successfully. -/
theorem C5_link_spec_witness :
    (Pad.link padStorePair 0 1).2 = none :=
  ((C5_link_spec padStorePair 0 1 ⟨"src0", .src, 0, none, none⟩
      ⟨"sink0", .sink, 1, none, none⟩ rfl rfl).1).mpr
    ⟨by decide, rfl, rfl⟩

/-- C6 (confirmed): pushing on a sink pad fails, pushing on an unlinked
source pad fails, and pushing on a linked source pad performs exactly
one handler invocation, on the peer pad, with the exact payload. -/
theorem C6_push_spec {α : Type} (st : List PadState) (i : Nat)
    (p : PadState) (buffer : α) (hp : st[i]? = some p) :
    (p.direction = .sink →
      Pad.push st i buffer =
        .error (.valueError "push is only valid on src pads")) ∧
    (p.direction = .src → p.peer = none →
      Pad.push st i buffer = .error (.valueError "pad is not linked")) ∧
    (∀ j, p.direction = .src → p.peer = some j →
      Pad.push st i buffer = .ok [(j, buffer)]) := by
  refine ⟨?_, ?_, ?_⟩
  · intro hdir
    simp [Pad.push, hp, hdir]
  · intro hdir hpeer
    simp [Pad.push, hp, hdir, hpeer]
  · intro k hdir hpeer
    simp [Pad.push, hp, hdir, hpeer]

/-- Witness for C6: pushing a concrete payload on the linked source pad
invokes the peer sink pad's handler exactly once with that payload. -/
theorem C6_push_spec_witness :
    Pad.push padStoreLinked 0 "payload" = .ok [(1, "payload")] :=
  (C6_push_spec padStoreLinked 0 ⟨"src0", .src, 0, some 1, none⟩
      "payload" rfl).2.2 1 rfl rfl

/-- C9 (confirmed): a `"caps"` event with a Caps payload stores the
payload on the pad; a `"caps"` event with any other payload raises the
caps-type error; every other event name raises the unhandled-event
error. -/
theorem C9_handle_event_spec (pad : PadState) (event : String)
    (payload : EventPayload) :
    (∀ c, event = "caps" → payload = .capsPayload c →
      Element.handle_event pad event payload =
        .ok { pad with caps := some c }) ∧
    (∀ t, event = "caps" → payload = .nonCaps t →
      Element.handle_event pad event payload =
        .error (.typeError "caps event requires Caps payload")) ∧
    (event ≠ "caps" →
      Element.handle_event pad event payload =
        .error (.notImplementedError ("unhandled event: " ++ event))) := by
  refine ⟨?_, ?_, ?_⟩
  · intro c hev hpl
    subst hev; subst hpl
    simp [Element.handle_event]
  · intro t hev hpl
    subst hev; subst hpl
    simp [Element.handle_event]
  · intro hev
    have : (event == "caps") = false := by
      simpa using hev
    simp [Element.handle_event, this]

/-- Witness for C9: a concrete caps event stores the document Caps on a
fresh pad. -/
theorem C9_handle_event_spec_witness :
    Element.handle_event ⟨"sink0", .sink, 0, none, none⟩ "caps"
        (.capsPayload DOCUMENT_CAPS) =
      .ok ⟨"sink0", .sink, 0, none, some DOCUMENT_CAPS⟩ :=
  (C9_handle_event_spec ⟨"sink0", .sink, 0, none, none⟩ "caps"
      (.capsPayload DOCUMENT_CAPS)).1 DOCUMENT_CAPS rfl rfl

/-- C10 (confirmed): when no detector matches and no classifier is
configured, the detection step surfaces the exhaustion error (the
`TypeFinderError` the spec calls DetectionExhausted); when a detector
matches, the result is its Caps with source `"header"` regardless of
any configured classifier — the classifier is consulted only in the
no-match case. -/
theorem C10_detection_exhausted (data : List Nat) (uri : String)
    (dets : List HeaderDetector) :
    (HeaderAnalyzer.detect dets data = none →
      _detect_caps data uri dets none =
        .error (.typeFinderError
          "Unknown format; Ollama fallback not configured")) ∧
    (∀ c, HeaderAnalyzer.detect dets data = some c →
      ∀ ol, _detect_caps data uri dets ol = .ok (c, "header")) := by
  constructor
  · intro h
    simp [_detect_caps, h]
  · intro c h ol
    simp [_detect_caps, h]

/-- Witness for C10: concrete non-printable noise with no classifier
configured raises the exhaustion error. -/
theorem C10_detection_exhausted_witness :
    _detect_caps noiseSample "file://noise.bin" DEFAULT_DETECTORS none =
      .error (.typeFinderError
        "Unknown format; Ollama fallback not configured") :=
  (C10_detection_exhausted noiseSample "file://noise.bin"
      DEFAULT_DETECTORS).1 (by decide)

/-! ## Dict lemmas -/

theorem dictGet_nil (k : String) : dictGet [] k = none := rfl

theorem dictGet_cons (k0 : String) (v0 : PyVal) (d : List (String × PyVal))
    (k : String) :
    dictGet ((k0, v0) :: d) k =
      if k0 == k then some v0 else dictGet d k := by
  by_cases h : k0 == k <;> simp [dictGet, List.find?_cons, h]

theorem dictGet_append (d e : List (String × PyVal)) (k : String) :
    dictGet (d ++ e) k = (dictGet d k).or (dictGet e k) := by
  induction d with
  | nil => simp [dictGet]
  | cons kv d ih =>
    rcases kv with ⟨k0, v0⟩
    by_cases h : k0 == k <;>
      simp [List.cons_append, dictGet_cons, h, ih]

/-- The in-place overwrite map of `dictSet` keeps every key. -/
theorem dictGet_overwrite_ne (d : List (String × PyVal)) (k k2 : String)
    (v : PyVal) (h : ¬ k = k2) :
    dictGet (d.map (fun kv => if kv.1 == k then (kv.1, v) else kv)) k2 =
      dictGet d k2 := by
  induction d with
  | nil => rfl
  | cons kv d ih =>
    rcases kv with ⟨k0, v0⟩
    simp only [List.map_cons]
    by_cases hk : (k0 == k) = true
    · rw [if_pos hk]
      have hk0 : k0 = k := by simpa using hk
      have hne : (k0 == k2) = false := by
        rw [hk0]
        exact beq_eq_false_iff_ne.mpr h
      rw [dictGet_cons, dictGet_cons, if_neg (by simp [hne]),
        if_neg (by simp [hne])]
      exact ih
    · rw [if_neg hk, dictGet_cons, dictGet_cons]
      by_cases hk2 : (k0 == k2) = true
      · rw [if_pos hk2, if_pos hk2]
      · rw [if_neg hk2, if_neg hk2]
        exact ih

theorem dictGet_overwrite_self (d : List (String × PyVal)) (k : String)
    (v : PyVal) (h : d.any (fun kv => kv.1 == k) = true) :
    dictGet (d.map (fun kv => if kv.1 == k then (kv.1, v) else kv)) k =
      some v := by
  induction d with
  | nil => simp at h
  | cons kv d ih =>
    rcases kv with ⟨k0, v0⟩
    simp only [List.map_cons]
    by_cases hk : (k0 == k) = true
    · rw [if_pos hk, dictGet_cons, if_pos hk]
    · rw [if_neg hk, dictGet_cons, if_neg hk]
      simp only [List.any_cons] at h
      rcases Bool.or_eq_true_iff.mp h with h0 | h1
      · exact absurd h0 hk
      · exact ih h1

theorem dictGet_dictSet_self (d : List (String × PyVal)) (k : String)
    (v : PyVal) : dictGet (dictSet d k v) k = some v := by
  unfold dictSet
  by_cases h : d.any (fun kv => kv.1 == k)
  · simp only [h, if_pos]
    exact dictGet_overwrite_self d k v h
  · simp only [h, Bool.false_eq_true, if_neg, not_false_iff]
    rw [dictGet_append]
    cases hget : dictGet d k with
    | some w =>
      exfalso
      apply h
      unfold dictGet at hget
      rcases Option.map_eq_some'.mp hget with ⟨kv, hfind, _⟩
      have := List.find?_some hfind
      exact List.any_of_mem (List.mem_of_find?_eq_some hfind) this
    | none => simp [dictGet_cons]

theorem dictGet_dictSet_ne (d : List (String × PyVal)) (k k2 : String)
    (v : PyVal) (h : ¬ k = k2) :
    dictGet (dictSet d k v) k2 = dictGet d k2 := by
  unfold dictSet
  by_cases hmem : d.any (fun kv => kv.1 == k)
  · simp only [hmem, if_pos]
    exact dictGet_overwrite_ne d k k2 v h
  · simp only [hmem, Bool.false_eq_true, if_neg, not_false_iff]
    rw [dictGet_append]
    have : (k == k2) = false := by simpa using h
    cases hget : dictGet d k2 <;>
      simp [dictGet_cons, dictGet_nil, this, hget]

/-- `dictUpdate` never loses a key. -/
theorem dictGet_dictUpdate_isSome (d e : List (String × PyVal))
    (k : String) (h : (dictGet d k).isSome = true) :
    (dictGet (dictUpdate d e) k).isSome = true := by
  unfold dictUpdate
  induction e generalizing d with
  | nil => exact h
  | cons kv e ih =>
    simp only [List.foldl_cons]
    apply ih
    by_cases hk : kv.1 = k
    · subst hk
      simp [dictGet_dictSet_self]
    · rw [dictGet_dictSet_ne _ _ _ _ hk]
      exact h

/-- A binding whose key is not touched by the update survives it. -/
theorem dictGet_dictUpdate_not_mem (d e : List (String × PyVal))
    (k : String) (h : ∀ kv ∈ e, ¬ kv.1 = k) :
    dictGet (dictUpdate d e) k = dictGet d k := by
  unfold dictUpdate
  induction e generalizing d with
  | nil => rfl
  | cons kv e ih =>
    simp only [List.foldl_cons]
    rw [ih _ (fun kv2 h2 => h kv2 (List.mem_cons_of_mem kv h2)),
      dictGet_dictSet_ne _ _ _ _ (h kv (List.mem_cons_self kv e))]

/-! ## String and predicate-URI lemmas -/

theorem strStartsWith_self_append (p k : String) :
    strStartsWith (p ++ k) p = true := by
  unfold strStartsWith
  rw [String.data_append]
  exact List.isPrefixOf_iff_prefix.mpr (List.prefix_append _ _)

theorem append_str_cancel (p k1 k2 : String) (h : p ++ k1 = p ++ k2) :
    k1 = k2 := by
  have hd := congrArg String.data h
  rw [String.data_append, String.data_append] at hd
  have h2 := List.append_cancel_left hd
  cases k1
  cases k2
  exact congrArg String.mk h2

/-- None of the base predicate URIs lies in the `PARAM` namespace. -/
theorem base_preds_no_param :
    strStartsWith RDF_type PARAM = false ∧
    strStartsWith DCTERMS_format PARAM = false ∧
    strStartsWith RDFS_label PARAM = false ∧
    strStartsWith RDFS_comment PARAM = false ∧
    strStartsWith SCHEMA_fileExtension PARAM = false ∧
    strStartsWith RDFS_subClassOf PARAM = false := by
  decide

theorem param_append_ne (k c : String)
    (hc : strStartsWith c PARAM = false) : ¬ PARAM ++ k = c := by
  intro h
  rw [← h, strStartsWith_self_append] at hc
  exact Bool.noConfusion hc

theorem predOf_generic (k : String) (h1 : ¬ k = "description")
    (h2 : ¬ k = "extensions") (h3 : ¬ k = "broader") :
    mapKeyToPredicate k = PARAM ++ k := by
  unfold mapKeyToPredicate
  rw [if_neg (by simpa using h1), if_neg (by simpa using h2),
    if_neg (by simpa using h3)]

/-- Every parameter predicate differs from the three base predicates. -/
theorem predOf_ne_base (k : String) :
    ¬ mapKeyToPredicate k = RDF_type ∧
    ¬ mapKeyToPredicate k = DCTERMS_format ∧
    ¬ mapKeyToPredicate k = RDFS_label := by
  by_cases h1 : k = "description"
  · subst h1; refine ⟨by decide, by decide, by decide⟩
  by_cases h2 : k = "extensions"
  · subst h2; refine ⟨by decide, by decide, by decide⟩
  by_cases h3 : k = "broader"
  · subst h3; refine ⟨by decide, by decide, by decide⟩
  rw [predOf_generic k h1 h2 h3]
  exact ⟨param_append_ne k _ base_preds_no_param.1,
    param_append_ne k _ base_preds_no_param.2.1,
    param_append_ne k _ base_preds_no_param.2.2.1⟩

theorem predOf_eq_comment_iff (k : String) :
    mapKeyToPredicate k = RDFS_comment ↔ k = "description" := by
  constructor
  · intro h
    by_cases h1 : k = "description"
    · exact h1
    by_cases h2 : k = "extensions"
    · subst h2; exact absurd h (by decide)
    by_cases h3 : k = "broader"
    · subst h3; exact absurd h (by decide)
    rw [predOf_generic k h1 h2 h3] at h
    exact absurd h (param_append_ne k _ base_preds_no_param.2.2.2.1)
  · intro h; subst h; rfl

theorem predOf_eq_fileExt_iff (k : String) :
    mapKeyToPredicate k = SCHEMA_fileExtension ↔ k = "extensions" := by
  constructor
  · intro h
    by_cases h1 : k = "description"
    · subst h1; exact absurd h (by decide)
    by_cases h2 : k = "extensions"
    · exact h2
    by_cases h3 : k = "broader"
    · subst h3; exact absurd h (by decide)
    rw [predOf_generic k h1 h2 h3] at h
    exact absurd h (param_append_ne k _ base_preds_no_param.2.2.2.2.1)
  · intro h; subst h; rfl

theorem predOf_eq_subClassOf_iff (k : String) :
    mapKeyToPredicate k = RDFS_subClassOf ↔ k = "broader" := by
  constructor
  · intro h
    by_cases h1 : k = "description"
    · subst h1; exact absurd h (by decide)
    by_cases h2 : k = "extensions"
    · subst h2; exact absurd h (by decide)
    by_cases h3 : k = "broader"
    · exact h3
    rw [predOf_generic k h1 h2 h3] at h
    exact absurd h (param_append_ne k _ base_preds_no_param.2.2.2.2.2)
  · intro h; subst h; rfl

/-- The parameter-key-to-predicate map is injective. -/
theorem predOf_inj (k1 k2 : String)
    (h : mapKeyToPredicate k1 = mapKeyToPredicate k2) : k1 = k2 := by
  by_cases ha : k1 = "description"
  · subst ha
    exact ((predOf_eq_comment_iff k2).mp h.symm).symm
  by_cases hb : k1 = "extensions"
  · subst hb
    exact ((predOf_eq_fileExt_iff k2).mp h.symm).symm
  by_cases hc : k1 = "broader"
  · subst hc
    exact ((predOf_eq_subClassOf_iff k2).mp h.symm).symm
  rw [predOf_generic k1 ha hb hc] at h
  by_cases ha2 : k2 = "description"
  · subst ha2; exact absurd h (param_append_ne k1 _
      base_preds_no_param.2.2.2.1)
  by_cases hb2 : k2 = "extensions"
  · subst hb2; exact absurd h (param_append_ne k1 _
      base_preds_no_param.2.2.2.2.1)
  by_cases hc2 : k2 = "broader"
  · subst hc2; exact absurd h (param_append_ne k1 _
      base_preds_no_param.2.2.2.2.2)
  rw [predOf_generic k2 ha2 hb2 hc2] at h
  exact append_str_cancel PARAM k1 k2 h

/-- The special predicates do not lie in the `PARAM` namespace while
generic ones do. -/
theorem predOf_startsWith_param (k : String) (h1 : ¬ k = "description")
    (h2 : ¬ k = "extensions") (h3 : ¬ k = "broader") :
    strStartsWith (mapKeyToPredicate k) PARAM = true := by
  rw [predOf_generic k h1 h2 h3]
  exact strStartsWith_self_append PARAM k

/-! ## Erasing the PARAM namespace prefix -/

theorem eraseAllFuel_no_occ (p0 : Char) (ps : List Char) (fuel : Nat)
    (l : List Char) (h : containsSeq (p0 :: ps) l = false) :
    eraseAllFuel p0 ps fuel l = l := by
  induction fuel generalizing l with
  | zero => cases l <;> rfl
  | succ fuel ih =>
    cases l with
    | nil => rfl
    | cons c t =>
      unfold containsSeq at h
      rcases Bool.or_eq_false_iff.mp h with ⟨hpre, hrest⟩
      simp only [eraseAllFuel]
      rw [if_neg (by simp [hpre]), ih t hrest]

theorem eraseAllAux_no_occ (p0 : Char) (ps l : List Char)
    (h : containsSeq (p0 :: ps) l = false) : eraseAllAux p0 ps l = l :=
  eraseAllFuel_no_occ p0 ps l.length l h

theorem eraseAllFuel_congr (p0 : Char) (ps : List Char) :
    ∀ (fuel1 fuel2 : Nat) (l : List Char), l.length ≤ fuel1 →
      l.length ≤ fuel2 →
      eraseAllFuel p0 ps fuel1 l = eraseAllFuel p0 ps fuel2 l := by
  intro fuel1
  induction fuel1 with
  | zero =>
    intro fuel2 l h1 _
    have hl : l = [] := List.length_eq_zero.mp (Nat.le_zero.mp h1)
    subst hl
    cases fuel2 <;> rfl
  | succ f1 ih =>
    intro fuel2 l h1 h2
    cases l with
    | nil => cases fuel2 <;> rfl
    | cons c t =>
      cases fuel2 with
      | zero => simp at h2
      | succ f2 =>
        simp only [eraseAllFuel]
        by_cases hpre : (p0 :: ps).isPrefixOf (c :: t) = true
        · rw [if_pos hpre, if_pos hpre]
          apply ih
          · simp only [List.length_drop]
            simp only [List.length_cons] at h1
            omega
          · simp only [List.length_drop]
            simp only [List.length_cons] at h2
            omega
        · rw [if_neg hpre, if_neg hpre]
          have ht : eraseAllFuel p0 ps f1 t = eraseAllFuel p0 ps f2 t := by
            apply ih
            · simp only [List.length_cons] at h1
              omega
            · simp only [List.length_cons] at h2
              omega
          rw [ht]

theorem eraseAllAux_leading (p0 : Char) (ps rest : List Char) :
    eraseAllAux p0 ps ((p0 :: ps) ++ rest) = eraseAllAux p0 ps rest := by
  unfold eraseAllAux
  rw [List.cons_append, List.length_cons]
  simp only [eraseAllFuel]
  rw [if_pos (List.isPrefixOf_iff_prefix.mpr ⟨rest, by simp⟩),
    List.drop_left]
  exact eraseAllFuel_congr p0 ps (ps ++ rest).length rest.length rest
    (by simp) (Nat.le_refl _)

theorem strEraseAll_append_of_no_occ (p k : String) (hne : p.data ≠ [])
    (h : containsSeq p.data k.data = false) :
    strEraseAll (p ++ k) p = k := by
  unfold strEraseAll
  cases hp : p.data with
  | nil => exact absurd hp hne
  | cons p0 ps =>
    show String.mk (eraseAllAux p0 ps (p ++ k).data) = k
    rw [String.data_append, hp]
    rw [eraseAllAux_leading, eraseAllAux_no_occ p0 ps k.data (hp ▸ h)]

theorem strEraseAll_param_append (k : String)
    (h : containsSeq PARAM.data k.data = false) :
    strEraseAll (PARAM ++ k) PARAM = k :=
  strEraseAll_append_of_no_occ PARAM k (by decide) h

/-! ## Graph construction lemmas -/

theorem mem_add (g : Graph) (t t2 : Triple) :
    t ∈ g.add t2 ↔ t ∈ g ∨ t = t2 := by
  unfold Graph.add
  by_cases h : t2 ∈ g
  · rw [if_pos h]
    constructor
    · exact Or.inl
    · rintro (h2 | h2)
      · exact h2
      · exact h2 ▸ h
  · rw [if_neg h]
    simp

theorem mem_foldl_add (ts : List Triple) (g : Graph) (t : Triple) :
    t ∈ ts.foldl Graph.add g ↔ t ∈ g ∨ t ∈ ts := by
  induction ts generalizing g with
  | nil => simp
  | cons t2 ts ih =>
    simp only [List.foldl_cons, ih, mem_add, List.mem_cons]
    tauto

theorem foldl_add_fresh (ts : List Triple) (g : Graph) (hnd : ts.Nodup)
    (hf : ∀ t ∈ ts, t ∉ g) : ts.foldl Graph.add g = g ++ ts := by
  induction ts generalizing g with
  | nil => simp
  | cons t ts ih =>
    simp only [List.foldl_cons]
    have ht : t ∉ g := hf t (List.mem_cons_self t ts)
    have hadd : g.add t = g ++ [t] := by
      unfold Graph.add
      rw [if_neg ht]
    rw [hadd, ih (g ++ [t]) (List.Nodup.of_cons hnd)
      (fun t2 h2 => by
        simp only [List.mem_append, List.mem_singleton]
        rintro (hg | hteq)
        · exact hf t2 (List.mem_cons_of_mem t h2) hg
        · subst hteq
          exact (List.nodup_cons.mp hnd).1 h2),
      List.append_assoc]
    rfl

theorem addParam_eq_foldl (node : RTerm) (g : Graph) (k : String)
    (v : PyVal) (hk : (k == "uri") = false) :
    addParam node g k v = (entryTriples node (k, v)).foldl Graph.add g := by
  unfold addParam entryTriples
  rw [if_neg (by simp_all), List.foldl_map]

theorem fold_entry (node : RTerm) (q : List (String × PyVal)) (g : Graph) :
    q.foldl
      (fun acc kv =>
        if kv.1 == "uri" then acc else addParam node acc kv.1 kv.2) g =
    (q.flatMap (entryTriples node)).foldl Graph.add g := by
  induction q generalizing g with
  | nil => rfl
  | cons kv q ih =>
    rcases kv with ⟨k, v⟩
    simp only [List.foldl_cons, List.flatMap_cons, List.foldl_append]
    by_cases hk : (k == "uri") = true
    · have : entryTriples node (k, v) = [] := by
        unfold entryTriples
        rw [if_pos hk]
      rw [this]
      simp only [if_pos hk, List.foldl_nil]
      exact ih g
    · rw [if_neg hk,
        addParam_eq_foldl node g k v (Bool.not_eq_true _ ▸ by simpa using hk)]
      exact ih _

theorem init_node_eq (mt n : Option String) (q : List (String × PyVal))
    (b : Nat) : (Caps.init mt n q b).node = initNode n q b := rfl

theorem init_graph_fold (mt n : Option String) (q : List (String × PyVal))
    (b : Nat) :
    (Caps.init mt n q b).graph =
      (q.flatMap (entryTriples (initNode n q b))).foldl Graph.add
        (baseBuild (initNode n q b) mt n) := by
  unfold Caps.init
  exact fold_entry _ q _

theorem baseBuild_eq (node : RTerm) (mt n : Option String) :
    baseBuild node mt n = baseTriples node mt n := by
  have h1 : ¬ DCTERMS_format = RDF_type := by decide
  have h2 : ¬ RDFS_label = RDF_type := by decide
  have h3 : ¬ RDFS_label = DCTERMS_format := by decide
  unfold baseBuild baseTriples
  cases mt <;> cases n <;>
    simp only [Graph.add] <;>
    split_ifs <;>
    simp_all [Triple.mk.injEq, h1, h2, h3]

/-! ## Well-formed entries and the shape of a constructed graph -/

theorem strShape_inv (v : PyVal) (h : strShape v = true) :
    ∃ s, v = PyVal.pstr s ∧ ¬ s = "" := by
  cases v with
  | scal sc =>
    cases sc with
    | pstr s => exact ⟨s, rfl, by simpa [strShape] using h⟩
    | pint n => simp [strShape] at h
    | pnone => simp [strShape] at h
  | plist vs => simp [strShape] at h
  | ptuple vs => simp [strShape] at h

theorem tupleShape_inv (v : PyVal) (h : tupleShape v = true) :
    ∃ vs, v = PyVal.ptuple vs ∧ vs ≠ [] ∧
      (∀ x ∈ vs, ∃ s, x = PyScalar.pstr s) ∧ vs.Nodup := by
  cases v with
  | scal sc => simp [tupleShape] at h
  | plist vs => simp [tupleShape] at h
  | ptuple vs =>
    refine ⟨vs, rfl, ?_, ?_, ?_⟩
    · simp only [tupleShape, Bool.and_eq_true] at h
      simpa [List.isEmpty_iff] using h.1.1
    · intro x hx
      simp only [tupleShape, Bool.and_eq_true, List.all_eq_true] at h
      have := h.1.2 x hx
      cases x with
      | pstr s => exact ⟨s, rfl⟩
      | pint n => simp [isStrScalar] at this
      | pnone => simp [isStrScalar] at this
    · simp only [tupleShape, Bool.and_eq_true] at h
      simpa using h.2

theorem genericShape_inv (k : String) (v : PyVal)
    (h : genericShape k v = true) :
    containsSeq PARAM.data k.data = false ∧
      ((∃ sc, v = PyVal.scal sc ∧ isIntOrStrScalar sc = true) ∨
       (∃ vs, v = PyVal.plist vs ∧ 2 ≤ vs.length ∧
         (∀ x ∈ vs, isIntOrStrScalar x = true) ∧ vs.Nodup)) := by
  cases v with
  | scal sc =>
    simp only [genericShape, Bool.and_eq_true, Bool.not_eq_true'] at h
    exact ⟨h.1, Or.inl ⟨sc, rfl, h.2⟩⟩
  | plist vs =>
    simp only [genericShape, Bool.and_eq_true, Bool.not_eq_true',
      List.all_eq_true, decide_eq_true_eq] at h
    exact ⟨h.1.1.1, Or.inr ⟨vs, rfl, h.1.1.2, h.1.2, h.2⟩⟩
  | ptuple vs => simp [genericShape] at h

/-- Good entries flatten to nonempty duplicate-free value lists. -/
theorem good_flatten_facts (k : String) (v : PyVal)
    (h : goodEntry (k, v) = true) :
    flattenVal v ≠ [] ∧ (flattenVal v).Nodup := by
  unfold goodEntry at h
  by_cases h1 : (k == "description") = true
  · rw [if_pos h1] at h
    rcases strShape_inv v h with ⟨s, rfl, _⟩
    exact ⟨by simp [PyVal.pstr, flattenVal], by simp [PyVal.pstr, flattenVal]⟩
  rw [if_neg h1] at h
  by_cases h2 : (k == "extensions") = true
  · rw [if_pos h2] at h
    rcases tupleShape_inv v h with ⟨vs, rfl, hne, _, hnd⟩
    exact ⟨by simpa [flattenVal] using hne, by simpa [flattenVal] using hnd⟩
  rw [if_neg h2] at h
  by_cases h3 : (k == "broader") = true
  · rw [if_pos h3] at h
    rcases tupleShape_inv v h with ⟨vs, rfl, hne, _, hnd⟩
    exact ⟨by simpa [flattenVal] using hne, by simpa [flattenVal] using hnd⟩
  rw [if_neg h3] at h
  by_cases h4 : (k == "uri") = true
  · rw [if_pos h4] at h
    rcases strShape_inv v h with ⟨s, rfl, _⟩
    exact ⟨by simp [PyVal.pstr, flattenVal], by simp [PyVal.pstr, flattenVal]⟩
  rw [if_neg h4] at h
  rcases genericShape_inv k v h with ⟨_, hsc | hls⟩
  · rcases hsc with ⟨sc, rfl, _⟩
    exact ⟨by simp [flattenVal], by simp [flattenVal]⟩
  · rcases hls with ⟨vs, rfl, hlen, _, hnd⟩
    refine ⟨?_, by simpa [flattenVal] using hnd⟩
    simp only [flattenVal]
    intro hcon
    rw [hcon] at hlen
    simp at hlen

/-- On a good entry the object map is injective on the value list. -/
theorem toRdfObject_injOn (k : String) (v : PyVal)
    (h : goodEntry (k, v) = true) :
    ∀ x ∈ flattenVal v, ∀ y ∈ flattenVal v,
      toRdfObject k x = toRdfObject k y → x = y := by
  intro x hx y hy hxy
  unfold toRdfObject at hxy
  by_cases hb : (k == "broader") = true
  · rw [if_pos hb, if_pos hb] at hxy
    have hk : k = "broader" := by simpa using hb
    unfold goodEntry at h
    rw [if_neg (by simp [hk]), if_neg (by simp [hk]), if_pos hb] at h
    rcases tupleShape_inv v h with ⟨vs, rfl, _, hstr, _⟩
    simp only [flattenVal] at hx hy
    rcases hstr x hx with ⟨sx, rfl⟩
    rcases hstr y hy with ⟨sy, rfl⟩
    simpa [PyScalar.pyStr] using hxy
  · rw [if_neg hb, if_neg hb] at hxy
    exact RTerm.lit.inj hxy

theorem entryTriples_nodup (node : RTerm) (k : String) (v : PyVal)
    (h : goodEntry (k, v) = true) :
    (entryTriples node (k, v)).Nodup := by
  unfold entryTriples
  by_cases hk : (k == "uri") = true
  · rw [if_pos hk]
    exact List.nodup_nil
  · rw [if_neg hk]
    apply List.Nodup.map_on
    · intro x hx y hy hxy
      exact toRdfObject_injOn k v h x hx y hy
        (by simpa [Triple.mk.injEq] using hxy)
    · exact (good_flatten_facts k v h).2

theorem entryTriples_mem (node : RTerm) (k : String) (v : PyVal)
    (t : Triple) (ht : t ∈ entryTriples node (k, v)) :
    t.subj = node ∧ t.pred = mapKeyToPredicate k ∧
      ∃ x ∈ flattenVal v, t.obj = toRdfObject k x := by
  unfold entryTriples at ht
  by_cases hk : (k == "uri") = true
  · rw [if_pos hk] at ht
    simp at ht
  · rw [if_neg hk] at ht
    rcases List.mem_map.mp ht with ⟨x, hx, rfl⟩
    exact ⟨rfl, rfl, x, hx, rfl⟩

/-- Conversely, every value of a non-uri entry contributes a triple. -/
theorem entryTriples_mem_of_val (node : RTerm) (k : String) (v : PyVal)
    (x : PyScalar) (hk : ¬ k = "uri") (hx : x ∈ flattenVal v) :
    (⟨node, mapKeyToPredicate k, toRdfObject k x⟩ : Triple) ∈
      entryTriples node (k, v) := by
  unfold entryTriples
  rw [if_neg (by simpa using hk)]
  exact List.mem_map_of_mem _ hx

/-- All the triples generated from a good dict are distinct. -/
theorem gen_nodup (node : RTerm) (q : List (String × PyVal))
    (hq : GoodDict q) : (q.flatMap (entryTriples node)).Nodup := by
  induction q with
  | nil => simp
  | cons kv q ih =>
    rcases hq with ⟨hkeys, hent⟩
    simp only [List.map_cons, List.nodup_cons] at hkeys
    simp only [List.flatMap_cons]
    apply List.Nodup.append
    · exact entryTriples_nodup node kv.1 kv.2
        (by simpa using hent kv (List.mem_cons_self kv q))
    · exact ih ⟨hkeys.2, fun kv2 h2 => hent kv2 (List.mem_cons_of_mem kv h2)⟩
    · intro t ht ht2
      rcases List.mem_flatMap.mp ht2 with ⟨kv2, hkv2, htin⟩
      have e1 := (entryTriples_mem node kv.1 kv.2 t
        (by rcases kv with ⟨a, b⟩; exact ht)).2.1
      have e2 := (entryTriples_mem node kv2.1 kv2.2 t
        (by rcases kv2 with ⟨a, b⟩; exact htin)).2.1
      have hkk : kv.1 = kv2.1 := predOf_inj _ _ (e1 ▸ e2.symm).symm
      exact hkeys.1 (hkk ▸ List.mem_map_of_mem Prod.fst hkv2)

/-- Base triples carry the three core predicates. -/
theorem baseTriples_mem (node : RTerm) (mt n : Option String) (t : Triple)
    (ht : t ∈ baseTriples node mt n) :
    t.subj = node ∧ (t.pred = RDF_type ∨ t.pred = DCTERMS_format ∨
      t.pred = RDFS_label) := by
  unfold baseTriples at ht
  rcases List.mem_cons.mp ht with rfl | ht2
  · exact ⟨rfl, Or.inl rfl⟩
  rcases List.mem_append.mp ht2 with hm | hn
  · cases mt with
    | none => simp at hm
    | some m =>
      simp only [List.mem_ite_nil_right, List.mem_singleton] at hm
      rcases hm with ⟨_, rfl⟩
      exact ⟨rfl, Or.inr (Or.inl rfl)⟩
  · cases n with
    | none => simp at hn
    | some s =>
      simp only [List.mem_ite_nil_right, List.mem_singleton] at hn
      rcases hn with ⟨_, rfl⟩
      exact ⟨rfl, Or.inr (Or.inr rfl)⟩

/-- Under a good dict the constructed graph is precisely the base
triples followed by the parameter triples in declaration order. -/
theorem good_graph_shape (mt n : Option String) (q : List (String × PyVal))
    (b : Nat) (hq : GoodDict q) :
    (Caps.init mt n q b).graph =
      baseTriples (initNode n q b) mt n ++
        q.flatMap (entryTriples (initNode n q b)) := by
  rw [init_graph_fold, baseBuild_eq]
  apply foldl_add_fresh
  · exact gen_nodup _ q hq
  · intro t ht hbase
    rcases List.mem_flatMap.mp ht with ⟨kv, hkv, htin⟩
    have e1 := (entryTriples_mem _ kv.1 kv.2 t
      (by rcases kv with ⟨a, b2⟩; exact htin)).2.1
    have e2 := (baseTriples_mem _ mt n t hbase).2
    rcases e2 with h | h | h
    · exact (predOf_ne_base kv.1).1 (e1 ▸ h)
    · exact (predOf_ne_base kv.1).2.1 (e1 ▸ h)
    · exact (predOf_ne_base kv.1).2.2 (e1 ▸ h)

/-! ## Reading the params back from the graph -/

theorem find?_eq_head_filter {α : Type} (p : α → Bool) (l : List α) :
    l.find? p = (l.filter p).head? := by
  induction l with
  | nil => rfl
  | cons a t ih =>
    by_cases h : p a = true
    · rw [List.find?_cons_of_pos _ h, List.filter_cons_of_pos h,
        List.head?_cons]
    · rw [List.find?_cons_of_neg _ (by simpa using h),
        List.filter_cons_of_neg (by simpa using h), ih]

theorem graphValue_eq_filter (g : Graph) (s : RTerm) (p : String) :
    Graph.value g s p =
      ((g.filter (fun t => t.subj == s && t.pred == p)).head?).map
        Triple.obj := by
  unfold Graph.value
  rw [find?_eq_head_filter]

theorem dictGet_mem (q : List (String × PyVal)) (k : String) (v : PyVal)
    (h : dictGet q k = some v) : (k, v) ∈ q := by
  unfold dictGet at h
  rcases Option.map_eq_some'.mp h with ⟨⟨k2, v2⟩, hfind, hv⟩
  have hk := List.find?_some hfind
  have hmem := List.mem_of_find?_eq_some hfind
  simp only at hv
  subst hv
  have : k2 = k := by simpa using hk
  subst this
  exact hmem

theorem dictGet_of_mem_nodup (q : List (String × PyVal)) (k : String)
    (v : PyVal) (hnd : (q.map Prod.fst).Nodup) (hmem : (k, v) ∈ q) :
    dictGet q k = some v := by
  induction q with
  | nil => simp at hmem
  | cons kv q ih =>
    simp only [List.map_cons, List.nodup_cons] at hnd
    rcases List.mem_cons.mp hmem with rfl | h2
    · simp [dictGet_cons]
    · have hk : ¬ kv.1 = k := by
        intro hcontra
        exact hnd.1 (hcontra ▸ List.mem_map_of_mem Prod.fst h2)
      rw [dictGet_cons _ _ _ _]
      rw [if_neg (by simpa using hk)]
      exact ih hnd.2 h2

theorem dictGet_none_not_mem (q : List (String × PyVal)) (k : String)
    (h : dictGet q k = none) : ∀ v, (k, v) ∉ q := by
  intro v hmem
  induction q with
  | nil => simp at hmem
  | cons kv q ih =>
    rcases List.mem_cons.mp hmem with rfl | h2
    · rw [dictGet_cons] at h
      simp at h
    · rw [dictGet_cons] at h
      by_cases hk : (kv.1 == k) = true
      · rw [if_pos hk] at h
        exact Option.noConfusion h
      · rw [if_neg hk] at h
        exact ih h h2

/-- Entry triples of key `k0` pass the subject/predicate filter for
`k0`. -/
theorem entry_filter_self (node : RTerm) (k0 : String) (v : PyVal) :
    (entryTriples node (k0, v)).filter
      (fun t => t.subj == node && t.pred == mapKeyToPredicate k0) =
    entryTriples node (k0, v) := by
  apply List.filter_eq_self.mpr
  intro t ht
  rcases entryTriples_mem node k0 v t ht with ⟨h1, h2, _⟩
  simp [h1, h2]

/-- Entry triples of another key fail the filter for `k0`. -/
theorem entry_filter_other (node : RTerm) (k : String) (v : PyVal)
    (k0 : String) (hne : ¬ k = k0) :
    (entryTriples node (k, v)).filter
      (fun t => t.subj == node && t.pred == mapKeyToPredicate k0) = [] := by
  apply List.filter_eq_nil_iff.mpr
  intro t ht
  rcases entryTriples_mem node k v t ht with ⟨_, h2, _⟩
  simp only [Bool.and_eq_true, beq_iff_eq, not_and]
  intro _
  rw [h2]
  exact fun hcontra => hne (predOf_inj k k0 hcontra)

/-- The parameter triples matching key `k0`'s predicate are exactly the
triples of `k0`'s entry. -/
theorem gen_filter_key (node : RTerm) (q : List (String × PyVal))
    (hkeys : (q.map Prod.fst).Nodup) (k0 : String) :
    (q.flatMap (entryTriples node)).filter
      (fun t => t.subj == node && t.pred == mapKeyToPredicate k0) =
    (match dictGet q k0 with
     | some v => entryTriples node (k0, v)
     | none => []) := by
  induction q with
  | nil => rfl
  | cons kv q ih =>
    rcases kv with ⟨k, v⟩
    simp only [List.map_cons, List.nodup_cons] at hkeys
    simp only [List.flatMap_cons, List.filter_append]
    by_cases hk : k = k0
    · subst hk
      rw [entry_filter_self, dictGet_cons, if_pos (by simp)]
      have hnone : dictGet q k = none := by
        cases hget : dictGet q k with
        | none => rfl
        | some w =>
          exact absurd (List.mem_map_of_mem Prod.fst (dictGet_mem q k w hget))
            hkeys.1
      rw [ih hkeys.2, hnone]
      simp
    · rw [entry_filter_other node k v k0 hk, dictGet_cons,
        if_neg (by simpa using hk)]
      simp only [List.nil_append]
      exact ih hkeys.2

/-- No base triple matches a parameter predicate. -/
theorem base_filter_param (node : RTerm) (mt n : Option String)
    (k0 : String) :
    (baseTriples node mt n).filter
      (fun t => t.subj == node && t.pred == mapKeyToPredicate k0) = [] := by
  apply List.filter_eq_nil_iff.mpr
  intro t ht
  rcases baseTriples_mem node mt n t ht with ⟨_, h | h | h⟩ <;>
    · simp only [Bool.and_eq_true, beq_iff_eq, not_and]
      intro _
      rw [h]
      rcases predOf_ne_base k0 with ⟨n1, n2, n3⟩
      intro hcontra
      first
      | exact n1 hcontra.symm
      | exact n2 hcontra.symm
      | exact n3 hcontra.symm

/-- Filtering the whole constructed graph by key `k0`'s predicate
yields exactly `k0`'s entry triples. -/
theorem graph_filter_key (mt n : Option String) (q : List (String × PyVal))
    (b : Nat) (hq : GoodDict q) (k0 : String) :
    ((Caps.init mt n q b).graph).filter
      (fun t => t.subj == initNode n q b &&
        t.pred == mapKeyToPredicate k0) =
    (match dictGet q k0 with
     | some v => entryTriples (initNode n q b) (k0, v)
     | none => []) := by
  rw [good_graph_shape mt n q b hq, List.filter_append, base_filter_param,
    gen_filter_key _ q hq.1 k0, List.nil_append]

theorem goodEntry_at (k : String) (v : PyVal) :
    goodEntry (k, v) =
      (if k == "description" then strShape v
       else if k == "extensions" then tupleShape v
       else if k == "broader" then tupleShape v
       else if k == "uri" then strShape v
       else genericShape k v) := rfl

theorem predOf_description_eq :
    mapKeyToPredicate "description" = RDFS_comment := by decide

theorem predOf_extensions_eq :
    mapKeyToPredicate "extensions" = SCHEMA_fileExtension := by decide

theorem predOf_broader_eq :
    mapKeyToPredicate "broader" = RDFS_subClassOf := by decide

theorem desc_of_good (mt n : Option String) (q : List (String × PyVal))
    (b : Nat) (hq : GoodDict q) :
    descPart (Caps.init mt n q b) =
      optBinding "description" (dictGet q "description") := by
  unfold descPart
  rw [init_node_eq, graphValue_eq_filter]
  have hf := graph_filter_key mt n q b hq "description"
  rw [predOf_description_eq] at hf
  rw [hf]
  cases hget : dictGet q "description" with
  | none => rfl
  | some v =>
    have hgood := hq.2 _ (dictGet_mem q _ v hget)
    have hshape : strShape v = true := by
      rw [goodEntry_at] at hgood
      rw [if_pos (by decide)] at hgood
      exact hgood
    rcases strShape_inv v hshape with ⟨s, rfl, hs⟩
    dsimp only
    have hb : ("description" == "uri") = false := by decide
    have hbr : ("description" == "broader") = false := by decide
    have hentry : entryTriples (initNode n q b) ("description", PyVal.pstr s) =
        [⟨initNode n q b, RDFS_comment, RTerm.lit (.pstr s)⟩] := by
      unfold entryTriples toRdfObject
      rw [if_neg (by simp [hb]), predOf_description_eq]
      simp [flattenVal, PyVal.pstr, hbr]
    rw [hentry]
    simp [RTerm.truthy, RTerm.pyStr, PyScalar.pyStr, hs, PyVal.pstr,
      optBinding]

theorem ext_of_good (mt n : Option String) (q : List (String × PyVal))
    (b : Nat) (hq : GoodDict q) :
    extPart (Caps.init mt n q b) =
      optBinding "extensions" (dictGet q "extensions") := by
  unfold extPart Graph.objectsOf
  rw [init_node_eq]
  have hf := graph_filter_key mt n q b hq "extensions"
  rw [predOf_extensions_eq] at hf
  rw [hf]
  cases hget : dictGet q "extensions" with
  | none => rfl
  | some v =>
    have hgood := hq.2 _ (dictGet_mem q _ v hget)
    have hshape : tupleShape v = true := by
      rw [goodEntry_at] at hgood
      rw [if_neg (by decide), if_pos (by decide)] at hgood
      exact hgood
    rcases tupleShape_inv v hshape with ⟨vs, rfl, hne, hstr, _⟩
    dsimp only
    have hb : ("extensions" == "uri") = false := by decide
    have hbr : ("extensions" == "broader") = false := by decide
    have hentry : entryTriples (initNode n q b) ("extensions", .ptuple vs) =
        vs.map (fun x => ⟨initNode n q b, SCHEMA_fileExtension,
          RTerm.lit x⟩) := by
      unfold entryTriples toRdfObject
      rw [if_neg (by simp [hb]), predOf_extensions_eq]
      simp [flattenVal, hbr]
    rw [hentry]
    have hmaps : ((vs.map (fun x => (⟨initNode n q b, SCHEMA_fileExtension,
        RTerm.lit x⟩ : Triple))).map Triple.obj).map RTerm.pyStr =
        vs.map (fun x => x.pyStr) := by
      simp [List.map_map, Function.comp, RTerm.pyStr]
    rw [hmaps]
    have hback : ((vs.map (fun x => x.pyStr)).map PyScalar.pstr) = vs := by
      rw [List.map_map]
      have : ∀ x ∈ vs, (PyScalar.pstr ∘ fun x => x.pyStr) x = id x := by
        intro x hx
        rcases hstr x hx with ⟨s, rfl⟩
        rfl
      rw [List.map_congr_left this, List.map_id]
    have hnemap : (vs.map (fun x => x.pyStr)).isEmpty = false := by
      cases vs with
      | nil => exact absurd rfl hne
      | cons a t => rfl
    simp only [hnemap, Bool.not_false, if_pos]
    rw [hback]
    rfl

theorem broad_of_good (mt n : Option String) (q : List (String × PyVal))
    (b : Nat) (hq : GoodDict q) :
    broadPart (Caps.init mt n q b) =
      optBinding "broader" (dictGet q "broader") := by
  unfold broadPart Graph.objectsOf
  rw [init_node_eq]
  have hf := graph_filter_key mt n q b hq "broader"
  rw [predOf_broader_eq] at hf
  rw [hf]
  cases hget : dictGet q "broader" with
  | none => rfl
  | some v =>
    have hgood := hq.2 _ (dictGet_mem q _ v hget)
    have hshape : tupleShape v = true := by
      rw [goodEntry_at] at hgood
      rw [if_neg (by decide), if_neg (by decide), if_pos (by decide)] at hgood
      exact hgood
    rcases tupleShape_inv v hshape with ⟨vs, rfl, hne, hstr, _⟩
    dsimp only
    have hb : ("broader" == "uri") = false := by decide
    have hbr : ("broader" == "broader") = true := by decide
    have hentry : entryTriples (initNode n q b) ("broader", .ptuple vs) =
        vs.map (fun x => ⟨initNode n q b, RDFS_subClassOf,
          RTerm.uri x.pyStr⟩) := by
      unfold entryTriples toRdfObject
      rw [if_neg (by simp [hb]), predOf_broader_eq]
      simp [flattenVal, hbr]
    rw [hentry]
    have hmaps : ((vs.map (fun x => (⟨initNode n q b, RDFS_subClassOf,
        RTerm.uri x.pyStr⟩ : Triple))).map Triple.obj).map RTerm.pyStr =
        vs.map (fun x => x.pyStr) := by
      simp [List.map_map, Function.comp, RTerm.pyStr]
    rw [hmaps]
    have hback : ((vs.map (fun x => x.pyStr)).map PyScalar.pstr) = vs := by
      rw [List.map_map]
      have : ∀ x ∈ vs, (PyScalar.pstr ∘ fun x => x.pyStr) x = id x := by
        intro x hx
        rcases hstr x hx with ⟨s, rfl⟩
        rfl
      rw [List.map_congr_left this, List.map_id]
    have hnemap : (vs.map (fun x => x.pyStr)).isEmpty = false := by
      cases vs with
      | nil => exact absurd rfl hne
      | cons a t => rfl
    simp only [hnemap, Bool.not_false, if_pos]
    rw [hback]
    rfl

/-! ## Reconstructing the generic parameter groups -/

theorem subjAll_of_good (mt n : Option String) (q : List (String × PyVal))
    (b : Nat) (hq : GoodDict q) :
    ∀ t ∈ (Caps.init mt n q b).graph, t.subj = initNode n q b := by
  intro t ht
  rw [good_graph_shape mt n q b hq] at ht
  rcases List.mem_append.mp ht with h | h
  · exact (baseTriples_mem _ mt n t h).1
  · rcases List.mem_flatMap.mp h with ⟨kv, _, htin⟩
    exact (entryTriples_mem _ kv.1 kv.2 t
      (by rcases kv with ⟨a, b2⟩; exact htin)).1

theorem triplesWithSubj_of_good (mt n : Option String)
    (q : List (String × PyVal)) (b : Nat) (hq : GoodDict q) :
    ((Caps.init mt n q b).graph).triplesWithSubj (initNode n q b) =
      (Caps.init mt n q b).graph := by
  apply List.filter_eq_self.mpr
  intro t ht
  simp [subjAll_of_good mt n q b hq t ht]

theorem fold_gstep_skip (l : Graph) (acc : List (String × List PyScalar))
    (h : ∀ t ∈ l, strStartsWith t.pred PARAM = false) :
    l.foldl (fun acc t =>
      if strStartsWith t.pred PARAM then
        groupAdd acc (strEraseAll t.pred PARAM) (scalarOfTerm t.obj)
      else acc) acc = acc := by
  induction l generalizing acc with
  | nil => rfl
  | cons t l ih =>
    simp only [List.foldl_cons]
    rw [if_neg (by simp [h t (List.mem_cons_self t l)])]
    exact ih acc (fun t2 h2 => h t2 (List.mem_cons_of_mem t h2))

theorem base_no_param (node : RTerm) (mt n : Option String) :
    ∀ t ∈ baseTriples node mt n, strStartsWith t.pred PARAM = false := by
  intro t ht
  rcases (baseTriples_mem node mt n t ht).2 with h | h | h <;> rw [h]
  · exact base_preds_no_param.1
  · exact base_preds_no_param.2.1
  · exact base_preds_no_param.2.2.1

theorem special_no_param (k : String)
    (h : k = "description" ∨ k = "extensions" ∨ k = "broader") :
    strStartsWith (mapKeyToPredicate k) PARAM = false := by
  rcases h with rfl | rfl | rfl
  · rw [predOf_description_eq]
    exact base_preds_no_param.2.2.2.1
  · rw [predOf_extensions_eq]
    exact base_preds_no_param.2.2.2.2.1
  · rw [predOf_broader_eq]
    exact base_preds_no_param.2.2.2.2.2

theorem genBlock_some (kv : String × PyVal) (bl : String × List PyScalar)
    (h : genBlock kv = some bl) :
    bl = (kv.1, flattenVal kv.2) ∧ ¬ kv.1 = "uri" ∧
      ¬ kv.1 = "description" ∧ ¬ kv.1 = "extensions" ∧
      ¬ kv.1 = "broader" := by
  unfold genBlock at h
  split at h
  · exact Option.noConfusion h
  next hcond =>
    simp only [Bool.or_eq_true, beq_iff_eq, not_or] at hcond
    refine ⟨(Option.some_inj.mp h).symm, ?_, ?_, ?_, ?_⟩ <;> tauto

theorem genBlock_none (kv : String × PyVal) (h : genBlock kv = none) :
    kv.1 = "uri" ∨ kv.1 = "description" ∨ kv.1 = "extensions" ∨
      kv.1 = "broader" := by
  unfold genBlock at h
  split at h
  next hcond =>
    simp only [Bool.or_eq_true, beq_iff_eq] at hcond
    tauto
  · exact Option.noConfusion h

theorem foldl_fun_congr {α β : Type} (l : List α) (f g : β → α → β)
    (init : β) (h : ∀ b a, f b a = g b a) :
    l.foldl f init = l.foldl g init := by
  have hfg : f = g := funext (fun b => funext (h b))
  rw [hfg]

/-- One generic entry feeds its flattened values into the group fold. -/
theorem fold_gstep_entry (node : RTerm) (k : String) (v : PyVal)
    (acc : List (String × List PyScalar))
    (hgood : goodEntry (k, v) = true)
    (hk : ¬ k = "uri") (h1 : ¬ k = "description") (h2 : ¬ k = "extensions")
    (h3 : ¬ k = "broader") :
    (entryTriples node (k, v)).foldl (fun acc t =>
      if strStartsWith t.pred PARAM then
        groupAdd acc (strEraseAll t.pred PARAM) (scalarOfTerm t.obj)
      else acc) acc =
    (flattenVal v).foldl (fun a x => groupAdd a k x) acc := by
  have hshape : genericShape k v = true := by
    rw [goodEntry_at] at hgood
    rw [if_neg (by simpa using h1), if_neg (by simpa using h2),
      if_neg (by simpa using h3), if_neg (by simpa using hk)] at hgood
    exact hgood
  have hnocc : containsSeq PARAM.data k.data = false :=
    (genericShape_inv k v hshape).1
  unfold entryTriples
  rw [if_neg (by simpa using hk), List.foldl_map]
  apply foldl_fun_congr
  intro a x
  show (if strStartsWith (mapKeyToPredicate k) PARAM = true then
      groupAdd a (strEraseAll (mapKeyToPredicate k) PARAM)
        (scalarOfTerm (toRdfObject k x))
    else a) = groupAdd a k x
  rw [predOf_generic k h1 h2 h3,
    if_pos (strStartsWith_self_append PARAM k),
    strEraseAll_param_append k hnocc]
  unfold toRdfObject
  rw [if_neg (by simpa using h3)]
  rfl

theorem groupAdd_fresh (acc : List (String × List PyScalar)) (k : String)
    (v : PyScalar) (h : k ∉ acc.map Prod.fst) :
    groupAdd acc k v = acc ++ [(k, [v])] := by
  have hany : (acc.any fun e => e.1 == k) = false := by
    rw [List.any_eq_false]
    intro e he
    simp only [beq_iff_eq]
    intro hek
    exact h (hek ▸ List.mem_map_of_mem Prod.fst he)
  unfold groupAdd
  rw [hany]
  simp

theorem groupAdd_extend (acc1 : List (String × List PyScalar)) (k : String)
    (cur vs : List PyScalar) (h : k ∉ acc1.map Prod.fst) :
    vs.foldl (fun a v => groupAdd a k v) (acc1 ++ [(k, cur)]) =
      acc1 ++ [(k, cur ++ vs)] := by
  induction vs generalizing cur with
  | nil => simp
  | cons v vs ih =>
    simp only [List.foldl_cons]
    have hstep : groupAdd (acc1 ++ [(k, cur)]) k v =
        acc1 ++ [(k, cur ++ [v])] := by
      unfold groupAdd
      rw [if_pos (by simp)]
      rw [List.map_append]
      congr 1
      · apply (List.map_congr_left ?_).trans (List.map_id acc1)
        intro e he
        have hek : (e.1 == k) = false := beq_eq_false_iff_ne.mpr
          (fun hekk => h (hekk ▸ List.mem_map_of_mem Prod.fst he))
        rw [if_neg (by simp [hek])]
        rfl
      · simp
    rw [hstep, ih (cur ++ [v])]
    simp

theorem groupAdd_blocks (blocks : List (String × List PyScalar))
    (acc : List (String × List PyScalar))
    (hnd : (blocks.map Prod.fst).Nodup)
    (hfresh : ∀ bl ∈ blocks, bl.1 ∉ acc.map Prod.fst)
    (hne : ∀ bl ∈ blocks, bl.2 ≠ []) :
    (blocks.flatMap (fun bl => bl.2.map (fun v => (bl.1, v)))).foldl
      (fun a p => groupAdd a p.1 p.2) acc = acc ++ blocks := by
  induction blocks generalizing acc with
  | nil => simp
  | cons bl blocks ih =>
    rcases bl with ⟨k, vs⟩
    simp only [List.flatMap_cons, List.foldl_append, List.map_cons,
      List.nodup_cons] at hnd ⊢
    have hfirst : (vs.map (fun v => (k, v))).foldl
        (fun a p => groupAdd a p.1 p.2) acc = acc ++ [(k, vs)] := by
      rw [List.foldl_map]
      cases hvs : vs with
      | nil => exact absurd hvs (hne (k, vs) (List.mem_cons_self _ _))
      | cons v vs2 =>
        simp only [List.foldl_cons]
        rw [groupAdd_fresh acc k v (hfresh (k, vs) (List.mem_cons_self _ _)),
          groupAdd_extend acc k [v] vs2
            (hfresh (k, vs) (List.mem_cons_self _ _))]
        simp
    rw [hfirst, ih (acc ++ [(k, vs)]) hnd.2
      (fun bl2 h2 => by
        simp only [List.map_append, List.mem_append, List.map_cons,
          List.mem_singleton, not_or]
        refine ⟨hfresh bl2 (List.mem_cons_of_mem _ h2), ?_⟩
        simp only [List.map_cons, List.map_nil, List.mem_singleton]
        intro hcontra
        exact hnd.1 (hcontra ▸ List.mem_map_of_mem Prod.fst h2))
      (fun bl2 h2 => hne bl2 (List.mem_cons_of_mem _ h2))]
    simp

theorem filterMap_genBlock_keys (q : List (String × PyVal)) :
    List.Sublist ((q.filterMap genBlock).map Prod.fst)
      (q.map Prod.fst) := by
  induction q with
  | nil => simp
  | cons kv q ih =>
    cases hgb : genBlock kv with
    | none =>
      rw [List.filterMap_cons_none (f := genBlock) hgb, List.map_cons]
      exact ih.cons kv.1
    | some bl =>
      rw [List.filterMap_cons_some hgb, List.map_cons, List.map_cons,
        (genBlock_some kv bl hgb).1]
      exact ih.cons₂ kv.1

/-- The generic group scan reconstructs exactly the generic entries of
the dict, with their flattened value lists, in declaration order. -/
theorem genericGroups_of_good (mt n : Option String)
    (q : List (String × PyVal)) (b : Nat) (hq : GoodDict q) :
    (Caps.init mt n q b).genericGroups = q.filterMap genBlock := by
  unfold Caps.genericGroups
  rw [init_node_eq, triplesWithSubj_of_good mt n q b hq,
    good_graph_shape mt n q b hq, List.foldl_append,
    fold_gstep_skip _ [] (base_no_param _ mt n)]
  have hgen : ∀ (q2 : List (String × PyVal))
      (acc : List (String × List PyScalar)),
      (∀ kv ∈ q2, goodEntry kv = true) →
      (q2.flatMap (entryTriples (initNode n q b))).foldl
        (fun acc t =>
          if strStartsWith t.pred PARAM then
            groupAdd acc (strEraseAll t.pred PARAM) (scalarOfTerm t.obj)
          else acc) acc =
      ((q2.filterMap genBlock).flatMap
        (fun bl => bl.2.map (fun v => (bl.1, v)))).foldl
        (fun a p => groupAdd a p.1 p.2) acc := by
    intro q2
    induction q2 with
    | nil => intro acc _; rfl
    | cons kv q2 ih =>
      intro acc hgood
      rcases kv with ⟨k, v⟩
      simp only [List.flatMap_cons, List.foldl_append]
      cases hgb : genBlock (k, v) with
      | none =>
        rcases genBlock_none (k, v) hgb with hk | hk | hk | hk
        · have hempty : entryTriples (initNode n q b) (k, v) = [] := by
            unfold entryTriples
            rw [if_pos (by simpa using hk)]
          rw [List.filterMap_cons_none (f := genBlock) hgb, hempty]
          exact ih acc (fun kv2 h2 => hgood kv2 (List.mem_cons_of_mem _ h2))
        all_goals
          have hskip : ∀ t ∈ entryTriples (initNode n q b) (k, v),
              strStartsWith t.pred PARAM = false := by
            intro t ht
            rw [(entryTriples_mem _ k v t ht).2.1]
            exact special_no_param k (by tauto)
          rw [List.filterMap_cons_none (f := genBlock) hgb, fold_gstep_skip _ acc hskip]
          exact ih acc (fun kv2 h2 => hgood kv2 (List.mem_cons_of_mem _ h2))
      | some bl =>
        rcases genBlock_some (k, v) bl hgb with ⟨rfl, hk, h1, h2, h3⟩
        rw [List.filterMap_cons_some hgb]
        simp only [List.flatMap_cons, List.foldl_append]
        rw [fold_gstep_entry (initNode n q b) k v acc
          (hgood (k, v) (List.mem_cons_self _ _)) hk h1 h2 h3,
          List.foldl_map]
        exact ih _ (fun kv2 hm => hgood kv2 (List.mem_cons_of_mem _ hm))
  rw [hgen q [] hq.2]
  apply groupAdd_blocks
  · exact hq.1.sublist (filterMap_genBlock_keys q)
  · simp
  · intro bl hbl
    rcases List.mem_filterMap.mp hbl with ⟨kv, hkv, hgb⟩
    rcases genBlock_some kv bl hgb with ⟨rfl, _, _, _, _⟩
    exact (good_flatten_facts kv.1 kv.2
      (by rcases kv with ⟨a, b2⟩; exact hq.2 _ hkv)).1

/-- Collapsing the reconstructed groups recovers the original generic
entries with their original values. -/
theorem collapse_of_good (q : List (String × PyVal))
    (hgood : ∀ kv ∈ q, goodEntry kv = true) :
    (q.filterMap genBlock).map collapseGroup =
      q.filter (fun kv => (genBlock kv).isSome) := by
  induction q with
  | nil => rfl
  | cons kv q ih =>
    rcases kv with ⟨k, v⟩
    cases hgb : genBlock (k, v) with
    | none =>
      rw [List.filterMap_cons_none (f := genBlock) hgb, List.filter_cons,
        if_neg (by simp [hgb])]
      exact ih (fun kv2 h2 => hgood _ (List.mem_cons_of_mem _ h2))
    | some bl =>
      rcases genBlock_some (k, v) bl hgb with ⟨rfl, hk, h1, h2, h3⟩
      rw [List.filterMap_cons_some hgb, List.map_cons, List.filter_cons,
        if_pos (by simp [hgb])]
      have hg := hgood (k, v) (List.mem_cons_self _ _)
      rw [goodEntry_at] at hg
      rw [if_neg (by simpa using h1), if_neg (by simpa using h2),
        if_neg (by simpa using h3), if_neg (by simpa using hk)] at hg
      have hcoll : collapseGroup (k, flattenVal v) = (k, v) := by
        rcases (genericShape_inv k v hg).2 with ⟨sc, rfl, _⟩ |
          ⟨vs, rfl, hlen, _, _⟩
        · rfl
        · show collapseGroup (k, vs) = (k, PyVal.plist vs)
          cases vs with
          | nil => rfl
          | cons a t =>
            cases t with
            | nil => simp at hlen
            | cons a2 t2 => rfl
      rw [hcoll]
      exact congrArg _ (ih (fun kv2 h2 => hgood _ (List.mem_cons_of_mem _ h2)))

theorem dictSet_fresh (acc : List (String × PyVal)) (k : String)
    (v : PyVal) (h : k ∉ acc.map Prod.fst) :
    dictSet acc k v = acc ++ [(k, v)] := by
  have hany : (acc.any fun kv => kv.1 == k) = false := by
    rw [List.any_eq_false]
    intro e he
    simp only [beq_iff_eq]
    intro hek
    exact h (hek ▸ List.mem_map_of_mem Prod.fst he)
  unfold dictSet
  rw [hany]
  simp

theorem dictSet_fold_append (entries acc : List (String × PyVal))
    (hfresh : ∀ kv ∈ entries, kv.1 ∉ acc.map Prod.fst)
    (hnd : (entries.map Prod.fst).Nodup) :
    entries.foldl (fun a kv => dictSet a kv.1 kv.2) acc = acc ++ entries := by
  induction entries generalizing acc with
  | nil => simp
  | cons kv entries ih =>
    simp only [List.map_cons, List.nodup_cons] at hnd
    simp only [List.foldl_cons]
    rw [dictSet_fresh acc kv.1 kv.2 (hfresh kv (List.mem_cons_self _ _)),
      ih (acc ++ [(kv.1, kv.2)])
        (fun kv2 h2 => by
          simp only [List.map_append, List.mem_append, not_or]
          refine ⟨hfresh kv2 (List.mem_cons_of_mem _ h2), ?_⟩
          simp only [List.map_cons, List.map_nil, List.mem_singleton]
          intro hcontra
          exact hnd.1 (hcontra ▸ List.mem_map_of_mem Prod.fst h2))
        hnd.2]
    simp

/-- The fully reconstructed params dict of a well-formed constructed
Caps: the three optional special bindings, the subject uri, then the
generic entries with their original values. -/
theorem params_shape (mt n : Option String) (q : List (String × PyVal))
    (b : Nat) (hq : GoodDict q) :
    (Caps.init mt n q b).params =
      (optBinding "description" (dictGet q "description") ++
        optBinding "extensions" (dictGet q "extensions") ++
        optBinding "broader" (dictGet q "broader") ++
        [("uri", PyVal.pstr (initNode n q b).pyStr)]) ++
      q.filter (fun kv => (genBlock kv).isSome) := by
  unfold Caps.params
  rw [desc_of_good mt n q b hq, ext_of_good mt n q b hq,
    broad_of_good mt n q b hq, genericGroups_of_good mt n q b hq,
    collapse_of_good q hq.2, init_node_eq]
  have hfresh : ∀ kv ∈ q.filter (fun kv => (genBlock kv).isSome),
      kv.1 ∉ ((optBinding "description" (dictGet q "description") ++
        optBinding "extensions" (dictGet q "extensions") ++
        optBinding "broader" (dictGet q "broader") ++
        [("uri", PyVal.pstr (initNode n q b).pyStr)]).map Prod.fst) := by
    intro kv hmem
    rcases List.mem_filter.mp hmem with ⟨hq2, hsome⟩
    rcases Option.isSome_iff_exists.mp (by simpa using hsome) with ⟨bl, hgb⟩
    rcases genBlock_some kv bl hgb with ⟨_, hk, h1, h2, h3⟩
    intro hmemkeys
    simp only [List.map_append, List.mem_append] at hmemkeys
    rcases hmemkeys with ((hd | he) | hb2) | hu
    · rcases List.mem_map.mp hd with ⟨kv2, hkv2, hkey⟩
      cases hob : dictGet q "description" with
      | none => rw [hob] at hkv2; simp [optBinding] at hkv2
      | some v2 =>
        rw [hob] at hkv2
        simp only [optBinding, List.mem_singleton] at hkv2
        subst hkv2
        exact h1 hkey.symm
    · rcases List.mem_map.mp he with ⟨kv2, hkv2, hkey⟩
      cases hob : dictGet q "extensions" with
      | none => rw [hob] at hkv2; simp [optBinding] at hkv2
      | some v2 =>
        rw [hob] at hkv2
        simp only [optBinding, List.mem_singleton] at hkv2
        subst hkv2
        exact h2 hkey.symm
    · rcases List.mem_map.mp hb2 with ⟨kv2, hkv2, hkey⟩
      cases hob : dictGet q "broader" with
      | none => rw [hob] at hkv2; simp [optBinding] at hkv2
      | some v2 =>
        rw [hob] at hkv2
        simp only [optBinding, List.mem_singleton] at hkv2
        subst hkv2
        exact h3 hkey.symm
    · rcases List.mem_map.mp hu with ⟨kv2, hkv2, hkey⟩
      have hkv2e : kv2 = ("uri", PyVal.pstr (initNode n q b).pyStr) :=
        List.mem_singleton.mp hkv2
      rw [hkv2e] at hkey
      exact hk hkey.symm
  have hnd : ((q.filter (fun kv => (genBlock kv).isSome)).map
      Prod.fst).Nodup :=
    hq.1.sublist ((q.filter_sublist).map Prod.fst)
  exact dictSet_fold_append _ _ hfresh hnd

/-! ## The params round trip -/

theorem dictGet_optBinding_self (k : String) (o : Option PyVal) :
    dictGet (optBinding k o) k = o := by
  cases o <;> simp [optBinding, dictGet_cons, dictGet_nil]

theorem dictGet_optBinding_ne (k k2 : String) (o : Option PyVal)
    (h : (k == k2) = false) : dictGet (optBinding k o) k2 = none := by
  cases o <;> simp [optBinding, dictGet_cons, dictGet_nil, h]

theorem dictGet_none_of_keys (l : List (String × PyVal)) (k : String)
    (h : ∀ kv ∈ l, ¬ kv.1 = k) : dictGet l k = none := by
  unfold dictGet
  rw [List.find?_eq_none.mpr]
  · rfl
  · intro kv hkv
    simpa using h kv hkv

theorem mem_dictSet (q : List (String × PyVal)) (k : String) (v : PyVal)
    (kv : String × PyVal) (h : kv ∈ dictSet q k v) :
    (kv ∈ q ∧ ¬ kv.1 = k) ∨ kv = (k, v) := by
  unfold dictSet at h
  by_cases hany : (q.any fun kv2 => kv2.1 == k) = true
  · rw [if_pos hany] at h
    rcases List.mem_map.mp h with ⟨e, he, hmap⟩
    by_cases hek : (e.1 == k) = true
    · rw [if_pos hek] at hmap
      right
      rw [← hmap]
      have : e.1 = k := by simpa using hek
      rw [this]
    · rw [if_neg hek] at hmap
      left
      exact ⟨hmap ▸ he, by rw [← hmap]; simpa using hek⟩
  · rw [if_neg hany] at h
    rcases List.mem_append.mp h with hq2 | hu
    · left
      refine ⟨hq2, ?_⟩
      have hany2 : (q.any fun kv2 => kv2.1 == k) = false := by
        cases hx : (q.any fun kv2 => kv2.1 == k) with
        | false => rfl
        | true => exact absurd hx hany
      rw [List.any_eq_false] at hany2
      simpa using hany2 kv hq2
    · right
      exact List.mem_singleton.mp hu

theorem genBlock_isSome_of_generic (kv : String × PyVal)
    (hk : ¬ kv.1 = "uri") (h1 : ¬ kv.1 = "description")
    (h2 : ¬ kv.1 = "extensions") (h3 : ¬ kv.1 = "broader") :
    (genBlock kv).isSome = true := by
  unfold genBlock
  rw [if_neg]
  · rfl
  · simp only [Bool.or_eq_true, beq_iff_eq]
    tauto

/-- The constructed Caps reads back as the input dict with the `uri`
binding set to the subject uri (Python dict equality, insertion order
ignored). -/
theorem params_roundtrip (mt n : Option String) (q : List (String × PyVal))
    (b : Nat) (hq : GoodDict q) :
    dictEquiv ((Caps.init mt n q b).params)
      (dictSet q "uri" (PyVal.pstr (initNode n q b).pyStr)) = true := by
  have hshape := params_shape mt n q b hq
  set u : PyVal := PyVal.pstr (initNode n q b).pyStr with hu
  set L := (optBinding "description" (dictGet q "description") ++
      optBinding "extensions" (dictGet q "extensions") ++
      optBinding "broader" (dictGet q "broader") ++ [("uri", u)]) ++
    q.filter (fun kv => (genBlock kv).isSome) with hL
  have hgetL : ∀ k, dictGet L k =
      ((((dictGet (optBinding "description" (dictGet q "description")) k).or
        (dictGet (optBinding "extensions" (dictGet q "extensions")) k)).or
        (dictGet (optBinding "broader" (dictGet q "broader")) k)).or
        (dictGet [("uri", u)] k)).or
        (dictGet (q.filter (fun kv => (genBlock kv).isSome)) k) := by
    intro k
    rw [hL, dictGet_append, dictGet_append, dictGet_append, dictGet_append]
  have hgen_get : ∀ (k : String), ¬ k = "uri" → ¬ k = "description" →
      ¬ k = "extensions" → ¬ k = "broader" →
      dictGet (q.filter (fun kv => (genBlock kv).isSome)) k =
        dictGet q k := by
    intro k hk h1 h2 h3
    cases hget : dictGet q k with
    | none =>
      apply dictGet_none_of_keys
      intro kv hkv
      intro hkey
      exact (dictGet_none_not_mem q k hget) kv.2
        (by rcases kv with ⟨a, b2⟩; exact hkey ▸ (List.mem_filter.mp hkv).1)
    | some v =>
      have hmem := dictGet_mem q k v hget
      have hnd2 : ((q.filter (fun kv => (genBlock kv).isSome)).map
          Prod.fst).Nodup :=
        hq.1.sublist ((q.filter_sublist).map Prod.fst)
      exact dictGet_of_mem_nodup _ k v hnd2
        (List.mem_filter.mpr ⟨hmem,
          genBlock_isSome_of_generic (k, v) hk h1 h2 h3⟩)
  have hgen_none : ∀ (k : String), k = "uri" ∨ k = "description" ∨
      k = "extensions" ∨ k = "broader" →
      dictGet (q.filter (fun kv => (genBlock kv).isSome)) k = none := by
    intro k hk
    apply dictGet_none_of_keys
    intro kv hkv hkey
    rcases List.mem_filter.mp hkv with ⟨_, hsome⟩
    rcases Option.isSome_iff_exists.mp (by simpa using hsome) with ⟨bl, hgb⟩
    rcases genBlock_some kv bl hgb with ⟨_, g1, g2, g3, g4⟩
    rcases hk with rfl | rfl | rfl | rfl
    · exact g1 hkey
    · exact g2 hkey
    · exact g3 hkey
    · exact g4 hkey
  rw [hshape]
  unfold dictEquiv
  rw [Bool.and_eq_true]
  constructor <;> rw [List.all_eq_true]
  · intro kv hkv
    simp only [beq_iff_eq]
    rcases List.mem_append.mp hkv with hspec | hgenm
    · rcases List.mem_append.mp hspec with hspec2 | huri
      · rcases List.mem_append.mp hspec2 with hspec3 | hbro
        · rcases List.mem_append.mp hspec3 with hdesc | hext
          · cases hob : dictGet q "description" with
            | none => rw [hob] at hdesc; simp [optBinding] at hdesc
            | some v =>
              rw [hob] at hdesc
              rcases List.mem_singleton.mp hdesc with rfl
              rw [dictGet_dictSet_ne q _ _ _
                (show ¬ "uri" = "description" by decide), hob]
          · cases hob : dictGet q "extensions" with
            | none => rw [hob] at hext; simp [optBinding] at hext
            | some v =>
              rw [hob] at hext
              rcases List.mem_singleton.mp hext with rfl
              rw [dictGet_dictSet_ne q _ _ _
                (show ¬ "uri" = "extensions" by decide), hob]
        · cases hob : dictGet q "broader" with
          | none => rw [hob] at hbro; simp [optBinding] at hbro
          | some v =>
            rw [hob] at hbro
            rcases List.mem_singleton.mp hbro with rfl
            rw [dictGet_dictSet_ne q _ _ _
                (show ¬ "uri" = "broader" by decide), hob]
      · rcases List.mem_singleton.mp huri with rfl
        rw [dictGet_dictSet_self]
    · rcases List.mem_filter.mp hgenm with ⟨hq2, hsome⟩
      rcases Option.isSome_iff_exists.mp (by simpa using hsome) with ⟨bl, hgb⟩
      rcases genBlock_some kv bl hgb with ⟨_, g1, g2, g3, g4⟩
      rw [dictGet_dictSet_ne q _ _ _ (fun hcontra => g1 hcontra.symm)]
      exact dictGet_of_mem_nodup q kv.1 kv.2 hq.1
        (by rcases kv with ⟨a, b2⟩; exact hq2)
  · intro kv hkv
    simp only [beq_iff_eq]
    rcases mem_dictSet q "uri" u kv hkv with ⟨hq2, hkne⟩ | rfl
    · rcases kv with ⟨k, v⟩
      simp only at hkne
      have hgetq : dictGet q k = some v := dictGet_of_mem_nodup q k v hq.1 hq2
      by_cases h1 : k = "description"
      · subst h1
        rw [hgetL, hgen_none _ (by tauto), dictGet_optBinding_self, hgetq]
        rfl
      by_cases h2 : k = "extensions"
      · subst h2
        rw [hgetL, hgen_none _ (by tauto), dictGet_optBinding_self,
          dictGet_optBinding_ne _ _ _
            (show ("description" == "extensions") = false by decide), hgetq]
        rfl
      by_cases h3 : k = "broader"
      · subst h3
        rw [hgetL, hgen_none _ (by tauto), dictGet_optBinding_self,
          dictGet_optBinding_ne _ _ _
            (show ("description" == "broader") = false by decide),
          dictGet_optBinding_ne _ _ _
            (show ("extensions" == "broader") = false by decide), hgetq]
        rfl
      · rw [hgetL, hgen_get k hkne h1 h2 h3, hgetq,
          dictGet_optBinding_ne _ _ _
            (beq_eq_false_iff_ne.mpr (fun hcontra => h1 hcontra.symm)),
          dictGet_optBinding_ne _ _ _
            (beq_eq_false_iff_ne.mpr (fun hcontra => h2 hcontra.symm)),
          dictGet_optBinding_ne _ _ _
            (beq_eq_false_iff_ne.mpr (fun hcontra => h3 hcontra.symm))]
        have : dictGet [("uri", u)] k = none := by
          rw [dictGet_cons]
          rw [if_neg (by simpa using fun hcontra => hkne hcontra.symm)]
          rfl
        rw [this]
        rfl
    · rw [hgetL, hgen_none _ (by tauto),
        dictGet_optBinding_ne _ _ _
          (show ("description" == "uri") = false by decide),
        dictGet_optBinding_ne _ _ _
          (show ("extensions" == "uri") = false by decide),
        dictGet_optBinding_ne _ _ _
          (show ("broader" == "uri") = false by decide)]
      rw [dictGet_cons]
      rfl

/-! ## Merge is re-construction over the updated dict (C7) -/

/-- Overwriting a key with the value it already has is a no-op. -/
theorem dictSet_get_same (d : List (String × PyVal)) (k : String)
    (v : PyVal) (hnd : (d.map Prod.fst).Nodup) (h : dictGet d k = some v) :
    dictSet d k v = d := by
  induction d with
  | nil =>
    rw [dictGet_nil] at h
    exact Option.noConfusion h
  | cons kv d ih =>
    simp only [List.map_cons, List.nodup_cons] at hnd
    by_cases hk : (kv.1 == k) = true
    · have hkk : kv.1 = k := by simpa using hk
      rw [dictGet_cons, if_pos hk] at h
      have hv : v = kv.2 := by
        injection h with h2
        exact h2.symm
      subst hv
      unfold dictSet
      rw [if_pos (by simp [hk])]
      rw [List.map_cons, if_pos hk]
      have htail : d.map (fun kv2 =>
          if kv2.1 == k then (kv2.1, kv.2) else kv2) = d := by
        apply (List.map_congr_left ?_).trans (List.map_id d)
        intro e he
        have hek : (e.1 == k) = false := beq_eq_false_iff_ne.mpr
          (fun hekk => hnd.1 ((hekk.trans hkk.symm) ▸
            List.mem_map_of_mem Prod.fst he))
        rw [if_neg (by simp [hek])]
        rfl
      rw [htail]
    · rw [dictGet_cons, if_neg hk] at h
      have hmem : (d.any fun kv2 => kv2.1 == k) = true := by
        rcases dictGet_mem d k v h with hm
        rw [List.any_eq_true]
        exact ⟨(k, v), hm, by simp⟩
      unfold dictSet
      rw [if_pos (by simp [hmem])]
      rw [List.map_cons, if_neg hk]
      have := ih hnd.2 h
      unfold dictSet at this
      rw [if_pos hmem] at this
      rw [this]

theorem descPart_keys (c : Caps) :
    ∀ kv ∈ descPart c, kv.1 = "description" := by
  intro kv hkv
  unfold descPart at hkv
  rcases hmatch : Graph.value c.graph c.node RDFS_comment with _ | o
  · rw [hmatch] at hkv
    simp at hkv
  · rw [hmatch] at hkv
    dsimp only at hkv
    by_cases ho : o.truthy = true
    · rw [if_pos ho] at hkv
      rcases List.mem_singleton.mp hkv with rfl
      rfl
    · rw [if_neg ho] at hkv
      simp at hkv

theorem extPart_keys (c : Caps) :
    ∀ kv ∈ extPart c, kv.1 = "extensions" := by
  intro kv hkv
  unfold extPart at hkv
  by_cases hne : (!((c.graph.objectsOf c.node
      SCHEMA_fileExtension).map RTerm.pyStr).isEmpty) = true
  · rw [if_pos hne] at hkv
    rcases List.mem_singleton.mp hkv with rfl
    rfl
  · rw [if_neg hne] at hkv
    simp at hkv

theorem broadPart_keys (c : Caps) :
    ∀ kv ∈ broadPart c, kv.1 = "broader" := by
  intro kv hkv
  unfold broadPart at hkv
  by_cases hne : (!((c.graph.objectsOf c.node
      RDFS_subClassOf).map RTerm.pyStr).isEmpty) = true
  · rw [if_pos hne] at hkv
    rcases List.mem_singleton.mp hkv with rfl
    rfl
  · rw [if_neg hne] at hkv
    simp at hkv

theorem params_uri_get (c : Caps) :
    dictGet (descPart c ++ extPart c ++ broadPart c ++
      [("uri", PyVal.pstr c.node.pyStr)]) "uri" =
      some (PyVal.pstr c.node.pyStr) := by
  rw [dictGet_append, dictGet_append, dictGet_append]
  have h1 : dictGet (descPart c) "uri" = none :=
    dictGet_none_of_keys _ _ (fun kv hkv hk => by
      rw [descPart_keys c kv hkv] at hk
      exact absurd hk (by decide))
  have h2 : dictGet (extPart c) "uri" = none :=
    dictGet_none_of_keys _ _ (fun kv hkv hk => by
      rw [extPart_keys c kv hkv] at hk
      exact absurd hk (by decide))
  have h3 : dictGet (broadPart c) "uri" = none :=
    dictGet_none_of_keys _ _ (fun kv hkv hk => by
      rw [broadPart_keys c kv hkv] at hk
      exact absurd hk (by decide))
  rw [h1, h2, h3]
  rfl

/-- Every Caps value exposes a `uri` param. -/
theorem params_uri_isSome (c : Caps) :
    (dictGet c.params "uri").isSome = true := by
  unfold Caps.params
  have h := dictGet_dictUpdate_isSome
    (descPart c ++ extPart c ++ broadPart c ++
      [("uri", PyVal.pstr c.node.pyStr)])
    (c.genericGroups.map collapseGroup) "uri"
    (by rw [params_uri_get]; rfl)
  unfold dictUpdate at h
  exact h

/-- C7 (corrected).  The claim promises `result.params = c.params
overridden by p` for every `p`; but the constructor normalises values
on the way through the graph — here a one-element list collapses to its
scalar, so the read-back differs from the plain dict override. -/
theorem C7_counterexample :
    dictEquiv
      ((capsSampleA.merge_params [("x", PyVal.plist [PyScalar.pint 5])]
        1).params)
      (dictUpdate capsSampleA.params
        [("x", PyVal.plist [PyScalar.pint 5])]) = false := by
  decide

/-- C7 (amended): `merge_params` leaves the receiver — its params,
media_type and name — unchanged, and whenever the overridden dict is in
constructor normal form the new Caps reads back exactly as the
receiver's params overridden by `p` (Python dict equality). -/
theorem C7_merge_params_nondestructive (c : Caps)
    (p : List (String × PyVal)) (b : Nat)
    (hgood : GoodDict (dictUpdate c.params p)) :
    (c.merge_params_run p b).1 = c ∧
    (c.merge_params_run p b).1.params = c.params ∧
    (c.merge_params_run p b).1.media_type = c.media_type ∧
    (c.merge_params_run p b).1.name = c.name ∧
    dictEquiv ((c.merge_params_run p b).2.params)
      (dictUpdate c.params p) = true := by
  refine ⟨rfl, rfl, rfl, rfl, ?_⟩
  show dictEquiv ((Caps.init c.media_type c.name
    (dictUpdate c.params p) b).params) (dictUpdate c.params p) = true
  have hsome : (dictGet (dictUpdate c.params p) "uri").isSome = true :=
    dictGet_dictUpdate_isSome c.params p "uri" (params_uri_isSome c)
  rcases Option.isSome_iff_exists.mp hsome with ⟨uv, hget⟩
  have hgood_uri := hgood.2 _ (dictGet_mem _ "uri" uv hget)
  have hshape : strShape uv = true := by
    rw [goodEntry_at] at hgood_uri
    rw [if_neg (by decide), if_neg (by decide), if_neg (by decide),
      if_pos (by decide)] at hgood_uri
    exact hgood_uri
  rcases strShape_inv uv hshape with ⟨s, rfl, hs⟩
  have hnode : initNode c.name (dictUpdate c.params p) b = RTerm.uri s := by
    unfold initNode
    rw [hget]
    dsimp only
    rw [if_pos (by simp [PyVal.pstr, PyVal.truthy, hs])]
    rfl
  have hrt := params_roundtrip c.media_type c.name
    (dictUpdate c.params p) b hgood
  rw [hnode] at hrt
  have hsame : dictSet (dictUpdate c.params p) "uri"
      (PyVal.pstr (RTerm.uri s).pyStr) = dictUpdate c.params p :=
    dictSet_get_same _ "uri" _ hgood.1 hget
  rw [hsame] at hrt
  exact hrt

/-- Witness for C7: merging a fingerprint override into a concrete
Caps yields exactly the overridden params, receiver untouched. -/
theorem C7_merge_params_nondestructive_witness :
    dictEquiv
      ((capsSampleA.merge_params_run
        [("fingerprint", PyVal.pstr "deadbeef")] 1).2.params)
      (dictUpdate capsSampleA.params
        [("fingerprint", PyVal.pstr "deadbeef")]) = true :=
  (C7_merge_params_nondestructive capsSampleA
    [("fingerprint", PyVal.pstr "deadbeef")] 1
    ⟨by decide, by decide⟩).2.2.2.2

/-! ## Structural characterization of graph-isomorphism equality (C8) -/

theorem graphSetEq_iff (g h : Graph) :
    graphSetEq g h = true ↔ (∀ t ∈ g, t ∈ h) ∧ (∀ t ∈ h, t ∈ g) := by
  unfold graphSetEq
  simp only [Bool.and_eq_true, List.all_eq_true, decide_eq_true_eq]

theorem baseTriples_obj (node : RTerm) (mt n : Option String) (t : Triple)
    (ht : t ∈ baseTriples node mt n) :
    (∃ u, t.obj = RTerm.uri u) ∨ (∃ sc, t.obj = RTerm.lit sc) := by
  unfold baseTriples at ht
  rcases List.mem_cons.mp ht with rfl | ht2
  · exact Or.inl ⟨PC ++ "Caps", rfl⟩
  rcases List.mem_append.mp ht2 with hm | hn
  · cases mt with
    | none => simp at hm
    | some m =>
      simp only [List.mem_ite_nil_right, List.mem_singleton] at hm
      rcases hm with ⟨_, rfl⟩
      exact Or.inr ⟨.pstr m, rfl⟩
  · cases n with
    | none => simp at hn
    | some s =>
      simp only [List.mem_ite_nil_right, List.mem_singleton] at hn
      rcases hn with ⟨_, rfl⟩
      exact Or.inr ⟨.pstr s, rfl⟩

theorem toRdfObject_not_bnode (k : String) (x : PyScalar) :
    (∃ u, toRdfObject k x = RTerm.uri u) ∨
      (∃ sc, toRdfObject k x = RTerm.lit sc) := by
  unfold toRdfObject
  by_cases hb : (k == "broader") = true
  · rw [if_pos hb]
    exact Or.inl ⟨x.pyStr, rfl⟩
  · rw [if_neg hb]
    exact Or.inr ⟨x, rfl⟩

theorem canonTriple_id (t : Triple) (u : String) (hs : t.subj = RTerm.uri u)
    (ho : (∃ u2, t.obj = RTerm.uri u2) ∨ (∃ sc, t.obj = RTerm.lit sc)) :
    canonTriple t = t := by
  rcases t with ⟨s, p, o⟩
  dsimp only at hs
  subst hs
  rcases ho with ⟨u2, ho⟩ | ⟨sc, ho⟩ <;> dsimp only at ho <;> subst ho <;> rfl

/-- With a URI subject node and a good dict, every triple survives
blank-node canonicalization unchanged. -/
theorem canon_map_id_of_good (mt n : Option String)
    (q : List (String × PyVal)) (b : Nat) (u : String) (hq : GoodDict q)
    (hnode : initNode n q b = RTerm.uri u) :
    ((Caps.init mt n q b).graph).map canonTriple =
      (Caps.init mt n q b).graph := by
  have hid : ∀ t ∈ (Caps.init mt n q b).graph, canonTriple t = id t := by
    intro t ht
    have hsub : t.subj = RTerm.uri u := by
      rw [subjAll_of_good mt n q b hq t ht, hnode]
    rw [good_graph_shape mt n q b hq] at ht
    rcases List.mem_append.mp ht with h | h
    · exact canonTriple_id t u hsub (baseTriples_obj _ mt n t h)
    · rcases List.mem_flatMap.mp h with ⟨kv, _, htin⟩
      rcases (entryTriples_mem _ kv.1 kv.2 t
        (by rcases kv with ⟨a, b2⟩; exact htin)).2.2 with ⟨x, _, hobj⟩
      apply canonTriple_id t u hsub
      rw [hobj]
      exact toRdfObject_not_bnode kv.1 x
  rw [List.map_congr_left hid, List.map_id]

/-- With no `uri` override and a truthy name the constructor subject is
the `PC`-namespaced name. -/
theorem initNode_of_name (n : String) (q : List (String × PyVal)) (b : Nat)
    (hu : dictGet q "uri" = none) (hn : ¬ n = "") :
    initNode (some n) q b = RTerm.uri (PC ++ n) := by
  unfold initNode
  rw [hu]
  dsimp only
  unfold fallbackNode
  dsimp only
  rw [if_pos (by simpa using hn)]

/-- The format triple sits in a constructed graph exactly when the
media_type argument is that truthy string. -/
theorem format_mem_iff (mt n : Option String) (q : List (String × PyVal))
    (b : Nat) (node : RTerm) (m : String) (hq : GoodDict q)
    (hnode : initNode n q b = node) :
    (⟨node, DCTERMS_format, RTerm.lit (.pstr m)⟩ : Triple) ∈
        (Caps.init mt n q b).graph ↔ (mt = some m ∧ ¬ m = "") := by
  rw [good_graph_shape mt n q b hq, hnode]
  constructor
  · intro h
    rcases List.mem_append.mp h with hb | hg
    · unfold baseTriples at hb
      rcases List.mem_cons.mp hb with he | hb2
      · exact absurd (congrArg Triple.pred he)
          (show ¬ DCTERMS_format = RDF_type by decide)
      rcases List.mem_append.mp hb2 with hm | hn
      · cases mt with
        | none => simp at hm
        | some m2 =>
          simp only [List.mem_ite_nil_right, List.mem_singleton] at hm
          rcases hm with ⟨htr, heq⟩
          have hmm : m = m2 :=
            PyScalar.pstr.inj (RTerm.lit.inj (congrArg Triple.obj heq))
          subst hmm
          exact ⟨rfl, by simpa using htr⟩
      · cases n with
        | none => simp at hn
        | some s =>
          simp only [List.mem_ite_nil_right, List.mem_singleton] at hn
          rcases hn with ⟨_, heq⟩
          exact absurd (congrArg Triple.pred heq)
            (show ¬ DCTERMS_format = RDFS_label by decide)
    · rcases List.mem_flatMap.mp hg with ⟨⟨k, w⟩, _, htin⟩
      have hpred := (entryTriples_mem node k w _ htin).2.1
      exact absurd hpred.symm (predOf_ne_base k).2.1
  · rintro ⟨hmt2, hm⟩
    subst hmt2
    apply List.mem_append_left
    unfold baseTriples
    apply List.mem_cons_of_mem
    apply List.mem_append_left
    dsimp only
    rw [if_pos (by simpa using hm)]
    exact List.mem_singleton.mpr rfl

/-- Cross-entry injectivity of the object map: good entries under the
same key map distinct values to distinct RDF objects. -/
theorem toRdfObject_inj2 (k : String) (v w : PyVal)
    (hv : goodEntry (k, v) = true) (hw : goodEntry (k, w) = true)
    (x : PyScalar) (hx : x ∈ flattenVal v) (y : PyScalar)
    (hy : y ∈ flattenVal w) (hxy : toRdfObject k x = toRdfObject k y) :
    x = y := by
  unfold toRdfObject at hxy
  by_cases hb : (k == "broader") = true
  · rw [if_pos hb, if_pos hb] at hxy
    have hk : k = "broader" := by simpa using hb
    unfold goodEntry at hv hw
    rw [if_neg (by simp [hk]), if_neg (by simp [hk]), if_pos hb] at hv hw
    rcases tupleShape_inv v hv with ⟨vs, rfl, _, hstrv, _⟩
    rcases tupleShape_inv w hw with ⟨ws, rfl, _, hstrw, _⟩
    simp only [flattenVal] at hx hy
    rcases hstrv x hx with ⟨sx, rfl⟩
    rcases hstrw y hy with ⟨sy, rfl⟩
    simpa [PyScalar.pyStr] using hxy
  · rw [if_neg hb, if_neg hb] at hxy
    exact RTerm.lit.inj hxy

/-- Every triple of a bound entry lies in the constructed graph. -/
theorem graph_mem_of_entry (mt n : Option String)
    (q : List (String × PyVal)) (b : Nat) (node : RTerm) (hq : GoodDict q)
    (hnode : initNode n q b = node) (k : String) (v : PyVal)
    (hkv : (k, v) ∈ q) (t : Triple) (ht : t ∈ entryTriples node (k, v)) :
    t ∈ (Caps.init mt n q b).graph := by
  rw [good_graph_shape mt n q b hq, hnode]
  exact List.mem_append_right _ (List.mem_flatMap.mpr ⟨(k, v), hkv, ht⟩)

/-- A parameter-shaped triple in a constructed graph can only come from
the dict entry with that key. -/
theorem mem_entry_of_graph (mt n : Option String)
    (q : List (String × PyVal)) (b : Nat) (node : RTerm) (hq : GoodDict q)
    (hnode : initNode n q b = node) (k : String) (x : PyScalar)
    (hmem : (⟨node, mapKeyToPredicate k, toRdfObject k x⟩ : Triple) ∈
      (Caps.init mt n q b).graph) :
    ∃ w, (k, w) ∈ q ∧ ∃ y ∈ flattenVal w,
      toRdfObject k x = toRdfObject k y := by
  rw [good_graph_shape mt n q b hq, hnode] at hmem
  rcases List.mem_append.mp hmem with h | h
  · rcases (baseTriples_mem node mt n _ h).2 with hp | hp | hp
    · exact absurd hp (predOf_ne_base k).1
    · exact absurd hp (predOf_ne_base k).2.1
    · exact absurd hp (predOf_ne_base k).2.2
  · rcases List.mem_flatMap.mp h with ⟨⟨k2, w⟩, hkw, htin⟩
    obtain ⟨_, hpred, y, hy, hobj⟩ := entryTriples_mem node k2 w _ htin
    have hkk : k = k2 := predOf_inj k k2 hpred
    subst hkk
    exact ⟨w, hkw, y, hy, hobj⟩

/-- First half of `paramsAgree`: each binding of the left dict is
matched, up to value permutation, in the right dict. -/
theorem paramsAgree_get (d e : List (String × PyVal)) (k : String)
    (v : PyVal) (hpa : paramsAgree d e = true) (hv : (k, v) ∈ d) :
    ∃ w, dictGet e k = some w ∧
      ((valueBag v).isPerm (valueBag w)) = true := by
  have hpa2 := hpa
  unfold paramsAgree at hpa2
  rw [Bool.and_eq_true] at hpa2
  have h1 := List.all_eq_true.mp hpa2.1 (k, v) hv
  dsimp only at h1
  cases hw : dictGet e k with
  | none =>
    rw [hw] at h1
    dsimp only at h1
    exact Bool.noConfusion h1
  | some w =>
    rw [hw] at h1
    dsimp only at h1
    exact ⟨w, rfl, h1⟩

/-- Second half of `paramsAgree`, read back through unique keys: each
binding of the right dict is matched in the left one. -/
theorem paramsAgree_back (d e : List (String × PyVal))
    (hne : (e.map Prod.fst).Nodup) (hpa : paramsAgree d e = true)
    (k : String) (w : PyVal) (hw : (k, w) ∈ e) :
    ∃ v, (k, v) ∈ d ∧ ((valueBag v).isPerm (valueBag w)) = true := by
  have hpa2 := hpa
  unfold paramsAgree at hpa2
  rw [Bool.and_eq_true] at hpa2
  have h2 := List.all_eq_true.mp hpa2.2 (k, w) hw
  dsimp only at h2
  rcases Option.isSome_iff_exists.mp h2 with ⟨v, hv⟩
  have hvd : (k, v) ∈ d := dictGet_mem d k v hv
  obtain ⟨w2, hw2, hperm⟩ := paramsAgree_get d e k v hpa hvd
  have hww : w2 = w := by
    rw [dictGet_of_mem_nodup e k w hne hw] at hw2
    exact (Option.some.inj hw2).symm
  subst hww
  exact ⟨v, hvd, hperm⟩

/-- C8 (confirmed): for Caps built by the constructor from normal-form
parameter dicts with truthy names and no `uri` override, the
graph-isomorphism equality test succeeds exactly when the construction
inputs agree structurally: same media_type, same name, and the same
parameter sets with multi-valued entries compared
order-independently. -/
theorem C8_caps_eq_iff (mt1 mt2 : Option String) (n1 n2 : String)
    (q1 q2 : List (String × PyVal)) (b1 b2 : Nat)
    (hq1 : GoodDict q1) (hq2 : GoodDict q2)
    (hu1 : dictGet q1 "uri" = none) (hu2 : dictGet q2 "uri" = none)
    (hn1 : ¬ n1 = "") (hn2 : ¬ n2 = "")
    (hm1 : optTruthy mt1 = mt1.isSome)
    (hm2 : optTruthy mt2 = mt2.isSome) :
    Caps.eq (Caps.init mt1 (some n1) q1 b1)
        (Caps.init mt2 (some n2) q2 b2) = true ↔
      (mt1 = mt2 ∧ n1 = n2 ∧ paramsAgree q1 q2 = true) := by
  have hnode1 := initNode_of_name n1 q1 b1 hu1 hn1
  have hnode2 := initNode_of_name n2 q2 b2 hu2 hn2
  unfold Caps.eq
  rw [canon_map_id_of_good mt1 (some n1) q1 b1 _ hq1 hnode1,
    canon_map_id_of_good mt2 (some n2) q2 b2 _ hq2 hnode2,
    graphSetEq_iff]
  constructor
  · rintro ⟨h12, h21⟩
    have ht0 : (⟨RTerm.uri (PC ++ n1), RDF_type,
        RTerm.uri (PC ++ "Caps")⟩ : Triple) ∈
        (Caps.init mt1 (some n1) q1 b1).graph := by
      rw [good_graph_shape mt1 (some n1) q1 b1 hq1, hnode1]
      apply List.mem_append_left
      unfold baseTriples
      exact List.mem_cons_self _ _
    have hsubj := subjAll_of_good mt2 (some n2) q2 b2 hq2 _ (h12 _ ht0)
    rw [hnode2] at hsubj
    have hn12 : n1 = n2 := append_str_cancel PC n1 n2 (RTerm.uri.inj hsubj)
    subst hn12
    have hmt : mt1 = mt2 := by
      cases mt1 with
      | none =>
        cases mt2 with
        | none => rfl
        | some m2 =>
          have hm2t : ¬ m2 = "" := by simpa [optTruthy] using hm2
          have hf2 := (format_mem_iff (some m2) (some n1) q2 b2
            (RTerm.uri (PC ++ n1)) m2 hq2 hnode2).mpr ⟨rfl, hm2t⟩
          have hf1 := (format_mem_iff none (some n1) q1 b1
            (RTerm.uri (PC ++ n1)) m2 hq1 hnode1).mp (h21 _ hf2)
          exact absurd hf1.1 (by simp)
      | some m1 =>
        have hm1t : ¬ m1 = "" := by simpa [optTruthy] using hm1
        have hf1 := (format_mem_iff (some m1) (some n1) q1 b1
          (RTerm.uri (PC ++ n1)) m1 hq1 hnode1).mpr ⟨rfl, hm1t⟩
        have hf2 := (format_mem_iff mt2 (some n1) q2 b2
          (RTerm.uri (PC ++ n1)) m1 hq2 hnode2).mp (h12 _ hf1)
        exact hf2.1.symm
    refine ⟨hmt, rfl, ?_⟩
    unfold paramsAgree
    rw [Bool.and_eq_true]
    constructor
    · apply List.all_eq_true.mpr
      rintro ⟨k, v⟩ hkv
      dsimp only
      have hg1e : goodEntry (k, v) = true := hq1.2 _ hkv
      have hknu : ¬ k = "uri" := fun hk =>
        dictGet_none_not_mem q1 "uri" hu1 v (hk ▸ hkv)
      have hfwd : ∀ x ∈ flattenVal v,
          ∃ w, dictGet q2 k = some w ∧ x ∈ flattenVal w := by
        intro x hx
        have hT1 : (⟨RTerm.uri (PC ++ n1), mapKeyToPredicate k,
            toRdfObject k x⟩ : Triple) ∈
            (Caps.init mt1 (some n1) q1 b1).graph :=
          graph_mem_of_entry mt1 (some n1) q1 b1 _ hq1 hnode1 k v hkv _
            (entryTriples_mem_of_val _ k v x hknu hx)
        obtain ⟨w, hkw, y, hy, hobj⟩ := mem_entry_of_graph mt2 (some n1)
          q2 b2 _ hq2 hnode2 k x (h12 _ hT1)
        have hg2e : goodEntry (k, w) = true := hq2.2 _ hkw
        have hxy : x = y := toRdfObject_inj2 k v w hg1e hg2e x hx y hy hobj
        refine ⟨w, dictGet_of_mem_nodup q2 k w hq2.1 hkw, ?_⟩
        rw [hxy]
        exact hy
      obtain ⟨x0, hx0⟩ := List.exists_mem_of_ne_nil _
        (good_flatten_facts k v hg1e).1
      obtain ⟨w, hw, _⟩ := hfwd x0 hx0
      rw [hw]
      show ((valueBag v).isPerm (valueBag w)) = true
      have hg2e : goodEntry (k, w) = true := hq2.2 _ (dictGet_mem q2 k w hw)
      refine List.isPerm_iff.mpr ((List.perm_ext_iff_of_nodup
        (good_flatten_facts k v hg1e).2
        (good_flatten_facts k w hg2e).2).mpr ?_)
      intro a
      constructor
      · intro ha
        obtain ⟨w2, hw2, haw⟩ := hfwd a ha
        rw [hw2] at hw
        rw [← Option.some.inj hw]
        exact haw
      · intro ha
        have hT2 : (⟨RTerm.uri (PC ++ n1), mapKeyToPredicate k,
            toRdfObject k a⟩ : Triple) ∈
            (Caps.init mt2 (some n1) q2 b2).graph :=
          graph_mem_of_entry mt2 (some n1) q2 b2 _ hq2 hnode2 k w
            (dictGet_mem q2 k w hw) _
            (entryTriples_mem_of_val _ k w a hknu ha)
        obtain ⟨v2, hkv2, z, hz, hobj⟩ := mem_entry_of_graph mt1 (some n1)
          q1 b1 _ hq1 hnode1 k a (h21 _ hT2)
        have hv2 : v2 = v := by
          have e1 := dictGet_of_mem_nodup q1 k v2 hq1.1 hkv2
          rw [dictGet_of_mem_nodup q1 k v hq1.1 hkv] at e1
          exact (Option.some.inj e1).symm
        subst hv2
        have haz : a = z :=
          toRdfObject_inj2 k w v2 hg2e (hq1.2 _ hkv2) a ha z hz hobj
        rw [haz]
        exact hz
    · apply List.all_eq_true.mpr
      rintro ⟨k, w⟩ hkw
      dsimp only
      have hg2e : goodEntry (k, w) = true := hq2.2 _ hkw
      have hknu : ¬ k = "uri" := fun hk =>
        dictGet_none_not_mem q2 "uri" hu2 w (hk ▸ hkw)
      obtain ⟨y0, hy0⟩ := List.exists_mem_of_ne_nil _
        (good_flatten_facts k w hg2e).1
      have hT2 : (⟨RTerm.uri (PC ++ n1), mapKeyToPredicate k,
          toRdfObject k y0⟩ : Triple) ∈
          (Caps.init mt2 (some n1) q2 b2).graph :=
        graph_mem_of_entry mt2 (some n1) q2 b2 _ hq2 hnode2 k w hkw _
          (entryTriples_mem_of_val _ k w y0 hknu hy0)
      obtain ⟨v, hkv, _⟩ := mem_entry_of_graph mt1 (some n1)
        q1 b1 _ hq1 hnode1 k y0 (h21 _ hT2)
      rw [dictGet_of_mem_nodup q1 k v hq1.1 hkv]
      rfl
  · rintro ⟨hmt, hn12, hpa⟩
    subst hmt
    subst hn12
    constructor
    · intro t ht
      rw [good_graph_shape mt1 (some n1) q1 b1 hq1, hnode1] at ht
      rw [good_graph_shape mt1 (some n1) q2 b2 hq2, hnode2]
      rcases List.mem_append.mp ht with hb | hgen
      · exact List.mem_append_left _ hb
      · rcases List.mem_flatMap.mp hgen with ⟨⟨k, v⟩, hkv, htin⟩
        obtain ⟨hsub, hpred, x, hx, hobj⟩ :=
          entryTriples_mem (RTerm.uri (PC ++ n1)) k v t htin
        obtain ⟨w, hw, hperm⟩ := paramsAgree_get q1 q2 k v hpa hkv
        have hknu : ¬ k = "uri" := fun hk =>
          dictGet_none_not_mem q1 "uri" hu1 v (hk ▸ hkv)
        have hxw : x ∈ flattenVal w :=
          (List.Perm.mem_iff (List.isPerm_iff.mp hperm)).mp hx
        apply List.mem_append_right
        apply List.mem_flatMap.mpr
        refine ⟨(k, w), dictGet_mem q2 k w hw, ?_⟩
        have hteq : t = ⟨RTerm.uri (PC ++ n1), mapKeyToPredicate k,
            toRdfObject k x⟩ := by
          rcases t with ⟨s, p, o⟩
          dsimp only at hsub hpred hobj
          rw [hsub, hpred, hobj]
        rw [hteq]
        exact entryTriples_mem_of_val _ k w x hknu hxw
    · intro t ht
      rw [good_graph_shape mt1 (some n1) q2 b2 hq2, hnode2] at ht
      rw [good_graph_shape mt1 (some n1) q1 b1 hq1, hnode1]
      rcases List.mem_append.mp ht with hb | hgen
      · exact List.mem_append_left _ hb
      · rcases List.mem_flatMap.mp hgen with ⟨⟨k, w⟩, hkw, htin⟩
        obtain ⟨hsub, hpred, y, hy, hobj⟩ :=
          entryTriples_mem (RTerm.uri (PC ++ n1)) k w t htin
        obtain ⟨v, hkv, hperm⟩ := paramsAgree_back q1 q2 hq2.1 hpa k w hkw
        have hknu : ¬ k = "uri" := fun hk =>
          dictGet_none_not_mem q2 "uri" hu2 w (hk ▸ hkw)
        have hyv : y ∈ flattenVal v :=
          (List.Perm.mem_iff (List.isPerm_iff.mp hperm)).mpr hy
        apply List.mem_append_right
        apply List.mem_flatMap.mpr
        refine ⟨(k, v), hkv, ?_⟩
        have hteq : t = ⟨RTerm.uri (PC ++ n1), mapKeyToPredicate k,
            toRdfObject k y⟩ := by
          rcases t with ⟨s, p, o⟩
          dsimp only at hsub hpred hobj
          rw [hsub, hpred, hobj]
        rw [hteq]
        exact entryTriples_mem_of_val _ k v y hknu hyv

/-- Witness for C8: two Caps built with the same media_type and name
and with the `broader` tuple listed in opposite orders (and distinct
blank-node counters) compare equal. -/
theorem C8_caps_eq_iff_witness :
    Caps.eq
      (Caps.init (some "text/plain") (some "t")
        [("broader", PyVal.ptuple [PyScalar.pstr "a", PyScalar.pstr "b"])] 0)
      (Caps.init (some "text/plain") (some "t")
        [("broader", PyVal.ptuple [PyScalar.pstr "b", PyScalar.pstr "a"])] 5)
      = true :=
  (C8_caps_eq_iff (some "text/plain") (some "text/plain") "t" "t"
    [("broader", PyVal.ptuple [PyScalar.pstr "a", PyScalar.pstr "b"])]
    [("broader", PyVal.ptuple [PyScalar.pstr "b", PyScalar.pstr "a"])] 0 5
    ⟨by decide, by decide⟩ ⟨by decide, by decide⟩ (by decide) (by decide)
    (by decide) (by decide) (by decide) (by decide)).mpr
    ⟨rfl, rfl, by decide⟩

end Cognita
